import Mathlib

/-!
Verification development for the `bcc` stream payments engine.

The definitions below shallowly embed the Rust sources:
 - `src/account.rs`   : the `AccountInner` state machine and its pure operations;
 - `src/engine.rs`    : `LocalState`, `Worker::process_tx`, `Engine::feed` /
   `finish` / `run` (sharded processing, routing by `client mod n_workers`);
 - the per-shard transaction store used by `engine.rs`
   (`insert` / `fetch_dispute` / `fetch_resolve`), whose implementation file is
   not part of the sources; its behaviour is modelled from the specification
   (see `fetch` notes on `stepE`).

Machine-level types (`common.rs`, also absent from the sources) are modelled
from the specification: `Value` is a fixed-point decimal with exact addition,
subtraction and total order, embedded here as `Int`; `Client` (u16) and
`TxId` (u32) are embedded as `Nat`.
-/

namespace Bcc

/-- Modelled from the spec: `common.rs` is not in the sources. The monetary
`Value` type is a signed fixed-point decimal with exact addition and
subtraction and a total order; every property proved here uses only that
ordered additive-group structure, so it is embedded as `Int`. -/
abbrev Value := Int

/-- Modelled from the spec: unsigned 16-bit client identifier (`common.rs` is
not in the sources), embedded as `Nat`. -/
abbrev Client := Nat

/-- Modelled from the spec: unsigned 32-bit transaction identifier
(`common.rs` is not in the sources), embedded as `Nat`. -/
abbrev TxId := Nat

/-- Dispute status of a stored deposit record (spec §3 `DisputeRecord`). -/
inductive TxStatus
  | undisputed
  | disputed
deriving DecidableEq, Repr

/-- Embeds `AccountError` from `account.rs`. -/
inductive AccountError
  | notEnoughFunds
deriving DecidableEq, Repr

/-- Embeds `StateError` from `engine.rs`. -/
inductive StateError
  | accountNotFound
  | accountFrozen
  | account (e : AccountError)
deriving DecidableEq, Repr

/-- Errors of the per-shard transaction store (spec §7 dispute errors plus
the physical I/O failure class). -/
inductive StoreError
  | notFound
  | notAvailableForDispute
  | noDisputeActive
  | ioFailure
deriving DecidableEq, Repr

/-- Embeds `engine::Error` from `engine.rs` (the channel error variant is not
reachable in this embedding). -/
inductive EngineError
  | state (e : StateError)
  | store (e : StoreError)
  | mismatchedClient
deriving DecidableEq, Repr

/-- The balance pair held by `AccountInner<ST>` in `account.rs`; the
`Active`/`Frozen` phantom parameter is represented by the `Account` sum. -/
structure AccountInner where
  available : Value
  held : Value
deriving DecidableEq, Repr

/-- Embeds `Account` from `account.rs`: `Active` or `Frozen` balances. -/
inductive Account
  | active (inner : AccountInner)
  | frozen (inner : AccountInner)
deriving DecidableEq, Repr

/-- Balance pair of an account, in either state. -/
def Account.inner : Account → AccountInner
  | .active i => i
  | .frozen i => i

namespace AccountInner

/-- Embeds `AccountInner::<Active>::withdraw` from `account.rs`. -/
def withdraw (a : AccountInner) (amount : Value) : Except AccountError AccountInner :=
  if a.available < amount then .error .notEnoughFunds
  else .ok { a with available := a.available - amount }

/-- Embeds `AccountInner::<Active>::deposit` from `account.rs`. -/
def deposit (a : AccountInner) (amount : Value) : Except AccountError AccountInner :=
  .ok { a with available := a.available + amount }

/-- Embeds `AccountInner::<Active>::freeze_funds` from `account.rs`: no funds
precondition, the available balance may go negative. -/
def freeze_funds (a : AccountInner) (amount : Value) : Except AccountError AccountInner :=
  .ok { available := a.available - amount, held := a.held + amount }

/-- Embeds `AccountInner::<Active>::release_funds` from `account.rs`. -/
def release_funds (a : AccountInner) (amount : Value) : Except AccountError AccountInner :=
  if a.held < amount then .error .notEnoughFunds
  else .ok { available := a.available + amount, held := a.held - amount }

/-- Embeds `AccountInner::<Active>::chargeback` from `account.rs`. -/
def chargeback (a : AccountInner) (amount : Value) : Except AccountError AccountInner :=
  if a.held < amount then .error .notEnoughFunds
  else .ok { a with held := a.held - amount }

/-- Embeds `AccountInner::<Active>::freeze` from `account.rs`: same balances, the
`Frozen` tag is applied by the caller via `Account.frozen`. -/
def freeze (a : AccountInner) : AccountInner := a

end AccountInner

/-- Embeds `Transaction` from `transaction.rs`. -/
inductive Transaction
  | deposit (client : Client) (tx_id : TxId) (value : Value)
  | withdrawal (client : Client) (tx_id : TxId) (value : Value)
  | dispute (client : Client) (tx_id : TxId)
  | resolve (client : Client) (tx_id : TxId)
  | chargeback (client : Client) (tx_id : TxId)
deriving DecidableEq, Repr

/-- Embeds `Transaction::client` from `transaction.rs`. -/
def Transaction.client : Transaction → Client
  | .deposit c _ _ => c
  | .withdrawal c _ _ => c
  | .dispute c _ => c
  | .resolve c _ => c
  | .chargeback c _ => c

/-- A record of the per-shard transaction store: the stored (deposit)
transaction's client and value together with its dispute status. The store
used by `engine.rs` is keyed by `tx_id` alone (`insert(tx_id, tx)`,
`fetch_dispute(tx_id)`, `fetch_resolve(tx_id)`); the event client is compared
with the stored client by the engine afterwards. -/
structure StoreRec where
  client : Client
  value : Value
  status : TxStatus
deriving DecidableEq, Repr

/-- The per-shard transaction store, keyed by `tx_id` (see `StoreRec`). -/
def Store := TxId → Option StoreRec

/-- Unconditional write of the store (spec §4.2: `insert` is an
unconditional write; an existing record under the same key is overwritten). -/
def Store.insert (st : Store) (t : TxId) (r : StoreRec) : Store :=
  fun u => if u = t then some r else st u

/-- Record deletion in the store. -/
def Store.remove (st : Store) (t : TxId) : Store :=
  fun u => if u = t then none else st u

/-- The map `client → Account` held by `LocalState` in `engine.rs`. -/
def Accounts := Client → Option Account

/-- Writing one account back into the accounts map. -/
def Accounts.update (a : Accounts) (client : Client) (acc : Account) : Accounts :=
  fun c => if c = client then some acc else a c

/-- The state-dependent part of `LocalState::ensure_active_do` from
`engine.rs`: decide, from the current entry for the client, the new account
value or the error. A vacant entry is created from `AccountInner::default()`
when `create_on_miss` holds, a frozen entry is rejected. -/
def ensure_active_res (cur : Option Account) (create_on_miss : Bool)
    (f : AccountInner → Except StateError Account) : Except StateError Account :=
  match cur with
  | some (Account.active inner) => f inner
  | some (Account.frozen _) => Except.error StateError.accountFrozen
  | none =>
    if create_on_miss then f { available := 0, held := 0 }
    else Except.error StateError.accountNotFound

/-- Embeds `LocalState::ensure_active_do` from `engine.rs`: look the client up,
compute the new account via `ensure_active_res`, and write it back. -/
def ensure_active_do (a : Accounts) (client : Client) (create_on_miss : Bool)
    (f : AccountInner → Except StateError Account) : Except StateError Accounts :=
  (ensure_active_res (a client) create_on_miss f).map (Accounts.update a client)

/-- Lifting of an `AccountError` result into an `Active` account result, as
done by the `?` conversions inside the `LocalState` methods. -/
def liftAcc (r : Except AccountError AccountInner) : Except StateError Account :=
  match r with
  | .ok x => .ok (.active x)
  | .error e => .error (.account e)

/-- Embeds `LocalState::deposit` from `engine.rs`. -/
def lsDeposit (a : Accounts) (client : Client) (amount : Value) : Except StateError Accounts :=
  ensure_active_do a client true (fun inner => liftAcc (inner.deposit amount))

/-- Embeds `LocalState::withdraw` from `engine.rs`. -/
def lsWithdraw (a : Accounts) (client : Client) (amount : Value) : Except StateError Accounts :=
  ensure_active_do a client false (fun inner => liftAcc (inner.withdraw amount))

/-- Embeds `LocalState::chargeback` from `engine.rs`. -/
def lsChargeback (a : Accounts) (client : Client) (amount : Value) : Except StateError Accounts :=
  ensure_active_do a client false (fun inner => liftAcc (inner.chargeback amount))

/-- Embeds `LocalState::release_funds` from `engine.rs`. -/
def lsRelease (a : Accounts) (client : Client) (amount : Value) : Except StateError Accounts :=
  ensure_active_do a client false (fun inner => liftAcc (inner.release_funds amount))

/-- Embeds `LocalState::freeze_funds` from `engine.rs`. -/
def lsFreezeFunds (a : Accounts) (client : Client) (amount : Value) : Except StateError Accounts :=
  ensure_active_do a client false (fun inner => liftAcc (inner.freeze_funds amount))

/-- Embeds `LocalState::freeze_account` from `engine.rs`. -/
def lsFreezeAccount (a : Accounts) (client : Client) : Except StateError Accounts :=
  ensure_active_do a client false (fun inner => .ok (.frozen inner.freeze))

/-- The state owned by one worker: its `LocalState` accounts map and its
transaction store (`Worker` in `engine.rs`). -/
structure EngineState where
  accounts : Accounts
  store : Store

/-- The initial worker state: empty accounts map, empty store. -/
def initState : EngineState :=
  { accounts := fun _ => none, store := fun _ => none }

/-- Embeds `Worker::process_tx` from `engine.rs`, returning the produced error (if
any) together with the state left behind by the call.

The store operations, whose implementation file is not in the sources, are
modelled from the specification (§4.2–§4.3): `insert` is an unconditional
keyed write; a `Dispute` requires the record to exist with status
`Undisputed` (an already-disputed record is rejected with
`NotAvailableForDispute`) and the record is marked `Disputed` together with
the account write-back on success; a `Resolve`/`Chargeback` requires status
`Disputed` (else `NoDisputeActive`) and the record is deleted together with
the account write-back on success; all store reads of a missing key fail with
`NotFound`. As in `engine.rs`, the record is fetched first, the event client
is then compared with the stored client (`MismatchedClient`), and the account
operations run last; any error drops the transaction. -/
def stepE (s : EngineState) (tx : Transaction) : Option EngineError × EngineState :=
  match tx with
  | .deposit client t v =>
    match lsDeposit s.accounts client v with
    | .error e => (some (.state e), s)
    | .ok m => (none, { accounts := m, store := s.store.insert t ⟨client, v, .undisputed⟩ })
  | .withdrawal client _ v =>
    match lsWithdraw s.accounts client v with
    | .error e => (some (.state e), s)
    | .ok m => (none, { s with accounts := m })
  | .dispute client t =>
    match s.store t with
    | none => (some (.store .notFound), s)
    | some r =>
      if r.status = .disputed then (some (.store .notAvailableForDispute), s)
      else if client ≠ r.client then (some .mismatchedClient, s)
      else
        match lsFreezeFunds s.accounts client r.value with
        | .error e => (some (.state e), s)
        | .ok m => (none, { accounts := m, store := s.store.insert t { r with status := .disputed } })
  | .resolve client t =>
    match s.store t with
    | none => (some (.store .notFound), s)
    | some r =>
      if r.status = .undisputed then (some (.store .noDisputeActive), s)
      else if client ≠ r.client then (some .mismatchedClient, s)
      else
        match lsRelease s.accounts client r.value with
        | .error e => (some (.state e), s)
        | .ok m => (none, { accounts := m, store := s.store.remove t })
  | .chargeback client t =>
    match s.store t with
    | none => (some (.store .notFound), s)
    | some r =>
      if r.status = .undisputed then (some (.store .noDisputeActive), s)
      else if client ≠ r.client then (some .mismatchedClient, s)
      else
        match lsChargeback s.accounts client r.value with
        | .error e => (some (.state e), s)
        | .ok m =>
          match lsFreezeAccount m client with
          | .error e => (some (.state e), { s with accounts := m })
          | .ok m2 => (none, { accounts := m2, store := s.store.remove t })

/-- The state transformation of one processed transaction: `Worker::run`
drops the error and keeps processing (`engine.rs`). -/
def step (s : EngineState) (tx : Transaction) : EngineState :=
  (stepE s tx).2

/-- The substream routed to shard `i` of `n` by `Engine::feed`
(`worker_id = tx.client() as usize % self.workers.len()`), in stream order. -/
def shardStream (n i : Nat) (S : List Transaction) : List Transaction :=
  S.filter (fun tx => tx.client % n == i)

/-- The final state of shard `i` of `n` after draining its queue. -/
def shardRun (n i : Nat) (S : List Transaction) : EngineState :=
  (shardStream n i S).foldl step initState

/-- One fold step of `LocalState::merge` (`self.accounts.extend(other)`:
the later shard's entry wins), observed at one client. -/
def mergeAt (c : Client) (acc : Option Account) (st : EngineState) : Option Account :=
  match st.accounts c with
  | some a => some a
  | none => acc

/-- Embeds `Engine::run` / `Engine::finish` from `engine.rs`: every shard processes
its routed substream, the shard states are folded together with
`LocalState::merge`, and the merged accounts map is read at each client. -/
def runEngine (S : List Transaction) (n : Nat) : Accounts :=
  fun c => ((List.range n).map (fun i => shardRun n i S)).foldl (mergeAt c) none

/-- The purely sequential, single-client reference run: fold the subsequence
of the stream belonging to one client. -/
def clientRun (c : Client) (S : List Transaction) : EngineState :=
  (S.filter (fun tx => tx.client == c)).foldl step initState

/-! ### Basic lemmas about the embedded operations -/

theorem Accounts.update_self (a : Accounts) (client : Client) (acc : Account) :
    a.update client acc client = some acc := by
  simp [Accounts.update]

theorem Accounts.update_ne (a : Accounts) {c client : Client} (acc : Account)
    (h : c ≠ client) : a.update client acc c = a c := by
  simp [Accounts.update, h]

theorem Store.insert_self (st : Store) (t : TxId) (r : StoreRec) :
    st.insert t r t = some r := by
  simp [Store.insert]

theorem Store.insert_ne (st : Store) {u t : TxId} (r : StoreRec) (h : u ≠ t) :
    st.insert t r u = st u := by
  simp [Store.insert, h]

theorem Store.remove_self (st : Store) (t : TxId) : st.remove t t = none := by
  simp [Store.remove]

theorem Store.remove_ne (st : Store) {u t : TxId} (h : u ≠ t) :
    st.remove t u = st u := by
  simp [Store.remove, h]

theorem ensure_active_do_ok {a : Accounts} {client : Client} {b : Bool}
    {f : AccountInner → Except StateError Account} {m : Accounts}
    (h : ensure_active_do a client b f = .ok m) :
    ∃ acc, ensure_active_res (a client) b f = .ok acc ∧ m = a.update client acc := by
  unfold ensure_active_do at h
  cases hres : ensure_active_res (a client) b f with
  | ok acc => rw [hres] at h; exact ⟨acc, rfl, by cases h; rfl⟩
  | error e => rw [hres] at h; cases h

theorem ensure_active_do_of_res_ok {a : Accounts} {client : Client} {b : Bool}
    {f : AccountInner → Except StateError Account} {acc : Account}
    (h : ensure_active_res (a client) b f = .ok acc) :
    ensure_active_do a client b f = .ok (a.update client acc) := by
  unfold ensure_active_do
  rw [h]
  rfl

theorem ensure_active_do_of_res_err {a : Accounts} {client : Client} {b : Bool}
    {f : AccountInner → Except StateError Account} {e : StateError}
    (h : ensure_active_res (a client) b f = .error e) :
    ensure_active_do a client b f = .error e := by
  unfold ensure_active_do
  rw [h]
  rfl

/-! ### Locality of one processing step -/

theorem stepE_accounts_other {s : EngineState} {tx : Transaction} {c : Client}
    (h : tx.client ≠ c) : (stepE s tx).2.accounts c = s.accounts c := by
  cases tx with
  | deposit client t v =>
    simp only [stepE]
    cases hd : lsDeposit s.accounts client v with
    | error e => rfl
    | ok m =>
      obtain ⟨acc, -, rfl⟩ := ensure_active_do_ok hd
      exact Accounts.update_ne _ _ (Ne.symm h)
  | withdrawal client t v =>
    simp only [stepE]
    cases hd : lsWithdraw s.accounts client v with
    | error e => rfl
    | ok m =>
      obtain ⟨acc, -, rfl⟩ := ensure_active_do_ok hd
      exact Accounts.update_ne _ _ (Ne.symm h)
  | dispute client t =>
    simp only [stepE]
    cases hst : s.store t with
    | none => rfl
    | some r =>
      by_cases h1 : r.status = .disputed
      · simp [h1]
      · by_cases h2 : client ≠ r.client
        · simp [h1, h2]
        · simp only [h1, h2, if_false, if_true, ite_false, ite_true]
          cases hd : lsFreezeFunds s.accounts client r.value with
          | error e => simp [h1, h2, hd]
          | ok m =>
            obtain ⟨acc, -, rfl⟩ := ensure_active_do_ok hd
            have hcc : c ≠ client := Ne.symm h
            simp [h1, h2, hd]
            exact Accounts.update_ne _ _ hcc
  | resolve client t =>
    simp only [stepE]
    cases hst : s.store t with
    | none => rfl
    | some r =>
      by_cases h1 : r.status = .undisputed
      · simp [h1]
      · by_cases h2 : client ≠ r.client
        · simp [h1, h2]
        · simp only [h1, h2, if_false, if_true, ite_false, ite_true]
          cases hd : lsRelease s.accounts client r.value with
          | error e => simp [h1, h2, hd]
          | ok m =>
            obtain ⟨acc, -, rfl⟩ := ensure_active_do_ok hd
            have hcc : c ≠ client := Ne.symm h
            simp [h1, h2, hd]
            exact Accounts.update_ne _ _ hcc
  | chargeback client t =>
    simp only [stepE]
    cases hst : s.store t with
    | none => rfl
    | some r =>
      by_cases h1 : r.status = .undisputed
      · simp [h1]
      · by_cases h2 : client ≠ r.client
        · simp [h1, h2]
        · simp only [h1, h2, if_false, if_true, ite_false, ite_true]
          cases hd : lsChargeback s.accounts client r.value with
          | error e => simp [h1, h2, hd]
          | ok m =>
            obtain ⟨acc, -, hm⟩ := ensure_active_do_ok hd
            subst hm
            have hcc : c ≠ client := Ne.symm h
            cases hf : lsFreezeAccount (s.accounts.update client acc) client with
            | error e =>
              simp [h1, h2, hd, hf]
              exact Accounts.update_ne _ _ hcc
            | ok m2 =>
              obtain ⟨acc2, -, hm2⟩ := ensure_active_do_ok hf
              subst hm2
              simp [h1, h2, hd, hf]
              rw [Accounts.update_ne _ _ hcc, Accounts.update_ne _ _ hcc]

/-- A transaction whose client owns a frozen account is rejected: some error
is produced and the whole worker state is returned unchanged. -/
theorem stepE_frozen_rejected {s : EngineState} {tx : Transaction} {a : AccountInner}
    (hf : s.accounts tx.client = some (.frozen a)) :
    ∃ e, stepE s tx = (some e, s) := by
  have hres : ∀ (b : Bool) (f : AccountInner → Except StateError Account),
      ensure_active_res (s.accounts tx.client) b f = .error .accountFrozen := by
    intro b f
    rw [hf]
    rfl
  cases tx with
  | deposit client t v =>
    have hd : lsDeposit s.accounts client v = .error .accountFrozen :=
      ensure_active_do_of_res_err (hres true _)
    exact ⟨.state .accountFrozen, by simp only [stepE]; rw [hd]⟩
  | withdrawal client t v =>
    have hd : lsWithdraw s.accounts client v = .error .accountFrozen :=
      ensure_active_do_of_res_err (hres false _)
    exact ⟨.state .accountFrozen, by simp only [stepE]; rw [hd]⟩
  | dispute client t =>
    cases hst : s.store t with
    | none => exact ⟨.store .notFound, by simp only [stepE]; rw [hst]⟩
    | some r =>
      by_cases h1 : r.status = .disputed
      · exact ⟨.store .notAvailableForDispute, by simp only [stepE]; rw [hst]; simp [h1]⟩
      · by_cases h2 : client ≠ r.client
        · exact ⟨.mismatchedClient, by simp only [stepE]; rw [hst]; simp [h1, h2]⟩
        · have hd : lsFreezeFunds s.accounts client r.value = .error .accountFrozen :=
            ensure_active_do_of_res_err (hres false _)
          exact ⟨.state .accountFrozen, by simp only [stepE]; rw [hst]; simp [h1, h2, hd]⟩
  | resolve client t =>
    cases hst : s.store t with
    | none => exact ⟨.store .notFound, by simp only [stepE]; rw [hst]⟩
    | some r =>
      by_cases h1 : r.status = .undisputed
      · exact ⟨.store .noDisputeActive, by simp only [stepE]; rw [hst]; simp [h1]⟩
      · by_cases h2 : client ≠ r.client
        · exact ⟨.mismatchedClient, by simp only [stepE]; rw [hst]; simp [h1, h2]⟩
        · have hd : lsRelease s.accounts client r.value = .error .accountFrozen :=
            ensure_active_do_of_res_err (hres false _)
          exact ⟨.state .accountFrozen, by simp only [stepE]; rw [hst]; simp [h1, h2, hd]⟩
  | chargeback client t =>
    cases hst : s.store t with
    | none => exact ⟨.store .notFound, by simp only [stepE]; rw [hst]⟩
    | some r =>
      by_cases h1 : r.status = .undisputed
      · exact ⟨.store .noDisputeActive, by simp only [stepE]; rw [hst]; simp [h1]⟩
      · by_cases h2 : client ≠ r.client
        · exact ⟨.mismatchedClient, by simp only [stepE]; rw [hst]; simp [h1, h2]⟩
        · have hd : lsChargeback s.accounts client r.value = .error .accountFrozen :=
            ensure_active_do_of_res_err (hres false _)
          exact ⟨.state .accountFrozen, by simp only [stepE]; rw [hst]; simp [h1, h2, hd]⟩

/-- A frozen account is still frozen, with the same balances, after any
single further transaction. -/
theorem step_frozen_stable {s : EngineState} {c : Client} {a : AccountInner}
    (hf : s.accounts c = some (.frozen a)) (tx : Transaction) :
    (step s tx).accounts c = some (.frozen a) := by
  by_cases hc : tx.client = c
  · subst hc
    obtain ⟨e, he⟩ := stepE_frozen_rejected hf
    unfold step
    rw [he]
    exact hf
  · unfold step
    rw [stepE_accounts_other hc]
    exact hf

/-- A frozen account is still frozen, with the same balances, after any
further stream of transactions. -/
theorem foldl_frozen_stable {c : Client} {a : AccountInner} :
    ∀ (L : List Transaction) (s : EngineState),
      s.accounts c = some (.frozen a) →
      (L.foldl step s).accounts c = some (.frozen a) := by
  intro L
  induction L with
  | nil => intro s hf; exact hf
  | cons tx L ih =>
    intro s hf
    exact ih (step s tx) (step_frozen_stable hf tx)

/-- Processing transactions of other clients never changes a client's
account entry. -/
theorem foldl_accounts_other {c : Client} :
    ∀ (L : List Transaction) (s : EngineState), (∀ tx ∈ L, tx.client ≠ c) →
      (L.foldl step s).accounts c = s.accounts c := by
  intro L
  induction L with
  | nil => intro s _; rfl
  | cons tx L ih =>
    intro s h
    rw [List.foldl_cons, ih (step s tx) (fun tx2 h2 => h tx2 (List.mem_cons_of_mem tx h2))]
    exact stepE_accounts_other (h tx (List.mem_cons_self tx L))

/-- A shard never holds an account of a client routed to another shard. -/
theorem shardRun_accounts_none {n i : Nat} {c : Client} {S : List Transaction}
    (h : c % n ≠ i) : (shardRun n i S).accounts c = none := by
  unfold shardRun
  rw [foldl_accounts_other]
  · rfl
  · intro tx htx he
    unfold shardStream at htx
    rw [List.mem_filter] at htx
    apply h
    rw [← he]
    exact eq_of_beq htx.2

/-- Folding `LocalState::merge` over shard states that all lack client `c`
returns the accumulator. -/
theorem foldl_mergeAt_none {c : Client} :
    ∀ (l : List EngineState) (acc : Option Account),
      (∀ st ∈ l, st.accounts c = none) → l.foldl (mergeAt c) acc = acc := by
  intro l
  induction l with
  | nil => intro acc _; rfl
  | cons st l ih =>
    intro acc h
    rw [List.foldl_cons,
      show mergeAt c acc st = acc from by
        unfold mergeAt; rw [h st (List.mem_cons_self st l)]]
    exact ih acc (fun st2 h2 => h st2 (List.mem_cons_of_mem st h2))

/-- Folding `LocalState::merge` over indexed shard states where only index
`j` can hold client `c` reads `j`'s entry. -/
theorem foldl_mergeAt_eq {c : Client} :
    ∀ (l : List Nat) (f : Nat → EngineState) (j : Nat) (acc : Option Account),
      j ∈ l → (∀ i ∈ l, i ≠ j → (f i).accounts c = none) →
      (l.map f).foldl (mergeAt c) acc = mergeAt c acc (f j) := by
  intro l
  induction l with
  | nil => intro f j acc hj _; cases hj
  | cons i l ih =>
    intro f j acc hj hothers
    simp only [List.map_cons, List.foldl_cons]
    by_cases hjl : j ∈ l
    · rw [ih f j (mergeAt c acc (f i)) hjl
        (fun i2 h2 hne => hothers i2 (List.mem_cons_of_mem i h2) hne)]
      by_cases hij : i = j
      · subst hij
        unfold mergeAt
        cases h : (f i).accounts c <;> simp [h]
      · rw [show mergeAt c acc (f i) = acc from by
          unfold mergeAt; rw [hothers i (List.mem_cons_self i l) hij]]
    · have hij : j = i := by
        rcases List.mem_cons.mp hj with h | h
        · exact h
        · exact absurd h hjl
      subst hij
      rw [foldl_mergeAt_none (l.map f) _ (fun st hst => by
        obtain ⟨i2, hi2, rfl⟩ := List.mem_map.mp hst
        exact hothers i2 (List.mem_cons_of_mem j hi2) (fun he => hjl (he ▸ hi2)))]

/-- With at least one worker, the merged engine result at client `c` is the
accounts entry of the unique shard `c % n` (`LocalState::merge` is a
disjoint union by the routing invariant). -/
theorem runEngine_eq_shardRun {S : List Transaction} {n : Nat} {c : Client}
    (hn : 0 < n) : runEngine S n c = (shardRun n (c % n) S).accounts c := by
  unfold runEngine
  rw [foldl_mergeAt_eq (List.range n) (fun i => shardRun n i S) (c % n) none
    (List.mem_range.mpr (Nat.mod_lt c hn))
    (fun i _ hne => shardRun_accounts_none (fun he => hne (he.symm)))]
  unfold mergeAt
  cases h : (shardRun n (c % n) S).accounts c <;> simp [h]

/-! ### The held-never-negative invariant -/

/-- The monetary amount carried by a transaction (zero for the
dispute-lifecycle events, which carry none). -/
def txValue : Transaction → Value
  | .deposit _ _ v => v
  | .withdrawal _ _ v => v
  | _ => 0

/-- Every account entry of the map has non-negative held funds. -/
def AccHeld (a : Accounts) : Prop :=
  ∀ c acc, a c = some acc → 0 ≤ acc.inner.held

/-- Every record of the store carries a non-negative value. -/
def StoreVals (st : Store) : Prop :=
  ∀ t r, st t = some r → 0 ≤ r.value

/-- The shard invariant backing `held ≥ 0`. -/
def HeldInv (s : EngineState) : Prop :=
  AccHeld s.accounts ∧ StoreVals s.store

theorem Accounts.update_lookup {a : Accounts} {client : Client} {acc : Account}
    {c : Client} {acc' : Account} (h : a.update client acc c = some acc') :
    acc' = acc ∨ a c = some acc' := by
  unfold Accounts.update at h
  by_cases hc : c = client
  · rw [if_pos hc] at h
    cases h
    exact Or.inl rfl
  · rw [if_neg hc] at h
    exact Or.inr h

theorem Store.insert_lookup {st : Store} {t : TxId} {r : StoreRec}
    {u : TxId} {r' : StoreRec} (h : st.insert t r u = some r') :
    (u = t ∧ r' = r) ∨ st u = some r' := by
  unfold Store.insert at h
  by_cases hu : u = t
  · rw [if_pos hu] at h
    cases h
    exact Or.inl ⟨hu, rfl⟩
  · rw [if_neg hu] at h
    exact Or.inr h

theorem Store.remove_lookup {st : Store} {t u : TxId} {r' : StoreRec}
    (h : st.remove t u = some r') : st u = some r' := by
  unfold Store.remove at h
  by_cases hu : u = t
  · rw [if_pos hu] at h
    cases h
  · rw [if_neg hu] at h
    exact h

theorem accHeld_update {a : Accounts} {client : Client} {acc : Account}
    (ha : AccHeld a) (hacc : 0 ≤ acc.inner.held) : AccHeld (a.update client acc) :=
  fun c acc' h => by
    rcases Accounts.update_lookup h with rfl | hold
    · exact hacc
    · exact ha c acc' hold

theorem storeVals_insert {st : Store} {t : TxId} {r : StoreRec}
    (hs : StoreVals st) (hr : 0 ≤ r.value) : StoreVals (st.insert t r) :=
  fun u r' h => by
    rcases Store.insert_lookup h with ⟨rfl, rfl⟩ | hold
    · exact hr
    · exact hs u r' hold

theorem storeVals_remove {st : Store} {t : TxId} (hs : StoreVals st) :
    StoreVals (st.remove t) :=
  fun u r' h => hs u r' (Store.remove_lookup h)

/-- Analysis of a successful `ensure_active_res`: held non-negativity of
the produced account follows from held non-negativity of the consulted
entry (or of the default account) and preservation by the callback. -/
theorem held_res {cur : Option Account} {b : Bool}
    {f : AccountInner → Except StateError Account} {acc : Account}
    (hres : ensure_active_res cur b f = .ok acc)
    (hheld : ∀ i, cur = some (.active i) → 0 ≤ i.held)
    (hf : ∀ i, 0 ≤ i.held → ∀ a2, f i = .ok a2 → 0 ≤ a2.inner.held) :
    0 ≤ acc.inner.held := by
  cases cur with
  | none =>
    cases b with
    | false =>
      have h2 : (Except.error StateError.accountNotFound : Except StateError Account)
          = .ok acc := hres
      cases h2
    | true => exact hf ⟨0, 0⟩ (le_refl 0) acc hres
  | some a0 =>
    cases a0 with
    | active i => exact hf i (hheld i rfl) acc hres
    | frozen i =>
      have h2 : (Except.error StateError.accountFrozen : Except StateError Account)
          = .ok acc := hres
      cases h2

theorem held_deposit {v : Value} :
    ∀ i : AccountInner, 0 ≤ i.held →
      ∀ a2, liftAcc (i.deposit v) = .ok a2 → 0 ≤ a2.inner.held := by
  intro i hi a2 hfa
  have h2 : Except.ok (Account.active ⟨i.available + v, i.held⟩) = .ok a2 := hfa
  injection h2 with h3
  rw [← h3]
  exact hi

theorem held_withdraw {v : Value} :
    ∀ i : AccountInner, 0 ≤ i.held →
      ∀ a2, liftAcc (i.withdraw v) = .ok a2 → 0 ≤ a2.inner.held := by
  intro i hi a2 hfa
  by_cases hg : i.available < v
  · have h2 : (Except.error (StateError.account .notEnoughFunds)
        : Except StateError Account) = .ok a2 := by
      have hfa2 : liftAcc (if i.available < v then .error .notEnoughFunds
          else .ok { i with available := i.available - v }) = .ok a2 := hfa
      rw [if_pos hg] at hfa2
      exact hfa2
    cases h2
  · have h2 : (Except.ok (Account.active { i with available := i.available - v })
        : Except StateError Account) = .ok a2 := by
      have hfa2 : liftAcc (if i.available < v then .error .notEnoughFunds
          else .ok { i with available := i.available - v }) = .ok a2 := hfa
      rw [if_neg hg] at hfa2
      exact hfa2
    injection h2 with h3
    rw [← h3]
    exact hi

theorem held_freeze_funds {w : Value} (hw : 0 ≤ w) :
    ∀ i : AccountInner, 0 ≤ i.held →
      ∀ a2, liftAcc (i.freeze_funds w) = .ok a2 → 0 ≤ a2.inner.held := by
  intro i hi a2 hfa
  have h2 : Except.ok (Account.active ⟨i.available - w, i.held + w⟩) = .ok a2 := hfa
  injection h2 with h3
  rw [← h3]
  have : (0 : Value) ≤ i.held + w := by linarith
  exact this

theorem held_release {w : Value} :
    ∀ i : AccountInner, 0 ≤ i.held →
      ∀ a2, liftAcc (i.release_funds w) = .ok a2 → 0 ≤ a2.inner.held := by
  intro i hi a2 hfa
  by_cases hg : i.held < w
  · have h2 : (Except.error (StateError.account .notEnoughFunds)
        : Except StateError Account) = .ok a2 := by
      have hfa2 : liftAcc (if i.held < w then .error .notEnoughFunds
          else .ok ⟨i.available + w, i.held - w⟩) = .ok a2 := hfa
      rw [if_pos hg] at hfa2
      exact hfa2
    cases h2
  · have h2 : (Except.ok (Account.active ⟨i.available + w, i.held - w⟩)
        : Except StateError Account) = .ok a2 := by
      have hfa2 : liftAcc (if i.held < w then .error .notEnoughFunds
          else .ok ⟨i.available + w, i.held - w⟩) = .ok a2 := hfa
      rw [if_neg hg] at hfa2
      exact hfa2
    injection h2 with h3
    rw [← h3]
    have hwle : w ≤ i.held := not_lt.mp hg
    have : (0 : Value) ≤ i.held - w := by linarith
    exact this

theorem held_chargeback {w : Value} :
    ∀ i : AccountInner, 0 ≤ i.held →
      ∀ a2, liftAcc (i.chargeback w) = .ok a2 → 0 ≤ a2.inner.held := by
  intro i hi a2 hfa
  by_cases hg : i.held < w
  · have h2 : (Except.error (StateError.account .notEnoughFunds)
        : Except StateError Account) = .ok a2 := by
      have hfa2 : liftAcc (if i.held < w then .error .notEnoughFunds
          else .ok { i with held := i.held - w }) = .ok a2 := hfa
      rw [if_pos hg] at hfa2
      exact hfa2
    cases h2
  · have h2 : (Except.ok (Account.active { i with held := i.held - w })
        : Except StateError Account) = .ok a2 := by
      have hfa2 : liftAcc (if i.held < w then .error .notEnoughFunds
          else .ok { i with held := i.held - w }) = .ok a2 := hfa
      rw [if_neg hg] at hfa2
      exact hfa2
    injection h2 with h3
    rw [← h3]
    have hwle : w ≤ i.held := not_lt.mp hg
    have : (0 : Value) ≤ i.held - w := by linarith
    exact this

theorem held_freeze :
    ∀ i : AccountInner, 0 ≤ i.held →
      ∀ a2, (Except.ok (Account.frozen i.freeze) : Except StateError Account) = .ok a2 →
        0 ≤ a2.inner.held := by
  intro i hi a2 hfa
  injection hfa with h3
  rw [← h3]
  exact hi

/-- One processing step preserves the held invariant, provided the
transaction's amount is non-negative (spec §3: deposit and withdrawal
values are `≥ 0`). -/
theorem heldInv_step {s : EngineState} (tx : Transaction) (hv : 0 ≤ txValue tx)
    (hi : HeldInv s) : HeldInv (step s tx) := by
  obtain ⟨ha, hs⟩ := hi
  have hheld : ∀ (client : Client) (i : AccountInner),
      s.accounts client = some (.active i) → 0 ≤ i.held :=
    fun client i h => ha client (.active i) h
  cases tx with
  | deposit client t v =>
    unfold step
    simp only [stepE]
    cases hd : lsDeposit s.accounts client v with
    | error e => exact ⟨ha, hs⟩
    | ok m =>
      obtain ⟨acc, hres, rfl⟩ := ensure_active_do_ok hd
      exact ⟨accHeld_update ha (held_res hres (hheld client) held_deposit),
        storeVals_insert hs hv⟩
  | withdrawal client t v =>
    unfold step
    simp only [stepE]
    cases hd : lsWithdraw s.accounts client v with
    | error e => exact ⟨ha, hs⟩
    | ok m =>
      obtain ⟨acc, hres, rfl⟩ := ensure_active_do_ok hd
      exact ⟨accHeld_update ha (held_res hres (hheld client) held_withdraw), hs⟩
  | dispute client t =>
    unfold step
    simp only [stepE]
    cases hst : s.store t with
    | none => exact ⟨ha, hs⟩
    | some r =>
      have hrv : 0 ≤ r.value := hs t r hst
      by_cases h1 : r.status = .disputed
      · simp only [h1, if_true, ite_true, reduceIte]
        exact ⟨ha, hs⟩
      · by_cases h2 : client ≠ r.client
        · simp only [h1, if_false, ite_false, reduceIte]
          rw [if_pos h2]
          exact ⟨ha, hs⟩
        · simp only [h1, if_false, ite_false, reduceIte]
          rw [if_neg h2]
          cases hd : lsFreezeFunds s.accounts client r.value with
          | error e => exact ⟨ha, hs⟩
          | ok m =>
            obtain ⟨acc, hres, rfl⟩ := ensure_active_do_ok hd
            refine ⟨accHeld_update ha
              (held_res hres (hheld client) (held_freeze_funds hrv)), ?_⟩
            exact storeVals_insert hs hrv
  | resolve client t =>
    unfold step
    simp only [stepE]
    cases hst : s.store t with
    | none => exact ⟨ha, hs⟩
    | some r =>
      by_cases h1 : r.status = .undisputed
      · simp only [h1, if_true, ite_true, reduceIte]
        exact ⟨ha, hs⟩
      · by_cases h2 : client ≠ r.client
        · simp only [h1, if_false, ite_false, reduceIte]
          rw [if_pos h2]
          exact ⟨ha, hs⟩
        · simp only [h1, if_false, ite_false, reduceIte]
          rw [if_neg h2]
          cases hd : lsRelease s.accounts client r.value with
          | error e => exact ⟨ha, hs⟩
          | ok m =>
            obtain ⟨acc, hres, rfl⟩ := ensure_active_do_ok hd
            exact ⟨accHeld_update ha (held_res hres (hheld client) held_release),
              storeVals_remove hs⟩
  | chargeback client t =>
    unfold step
    simp only [stepE]
    cases hst : s.store t with
    | none => exact ⟨ha, hs⟩
    | some r =>
      by_cases h1 : r.status = .undisputed
      · simp only [h1, if_true, ite_true, reduceIte]
        exact ⟨ha, hs⟩
      · by_cases h2 : client ≠ r.client
        · simp only [h1, if_false, ite_false, reduceIte]
          rw [if_pos h2]
          exact ⟨ha, hs⟩
        · simp only [h1, if_false, ite_false, reduceIte]
          rw [if_neg h2]
          cases hd : lsChargeback s.accounts client r.value with
          | error e => exact ⟨ha, hs⟩
          | ok m =>
            obtain ⟨acc, hres, rfl⟩ := ensure_active_do_ok hd
            have ham : AccHeld (s.accounts.update client acc) :=
              accHeld_update ha (held_res hres (hheld client) held_chargeback)
            show HeldInv (match lsFreezeAccount (s.accounts.update client acc) client with
              | Except.error e => ((some (EngineError.state e) : Option EngineError),
                  (⟨s.accounts.update client acc, s.store⟩ : EngineState))
              | Except.ok m2 =>
                ((none : Option EngineError),
                 (⟨m2, s.store.remove t⟩ : EngineState))).2
            cases hf : lsFreezeAccount (s.accounts.update client acc) client with
            | error e => exact ⟨ham, hs⟩
            | ok m2 =>
              obtain ⟨acc2, hres2, rfl⟩ := ensure_active_do_ok hf
              exact ⟨accHeld_update ham
                (held_res hres2 (fun i h => ham client (.active i) h) held_freeze),
                storeVals_remove hs⟩

/-- The held invariant holds along any fold of valid transactions. -/
theorem heldInv_foldl :
    ∀ (L : List Transaction) (s : EngineState), (∀ tx ∈ L, 0 ≤ txValue tx) →
      HeldInv s → HeldInv (L.foldl step s) := by
  intro L
  induction L with
  | nil => intro s _ hi; exact hi
  | cons tx L ih =>
    intro s hv hi
    exact ih (step s tx)
      (fun tx2 h2 => hv tx2 (List.mem_cons_of_mem tx h2))
      (heldInv_step tx (hv tx (List.mem_cons_self tx L)) hi)

theorem heldInv_init : HeldInv initState :=
  ⟨fun _ _ h => Option.noConfusion h, fun _ _ h => Option.noConfusion h⟩

/-! ### The deposit–dispute–(resolve/chargeback) lifecycle -/

theorem ensure_active_res_all {s : EngineState} {c : Client} {av h : Value}
    (hs : s.accounts c = none ∧ av = 0 ∧ h = 0
        ∨ s.accounts c = some (.active ⟨av, h⟩)) :
    ∀ f, ensure_active_res (s.accounts c) true f = f ⟨av, h⟩ := by
  intro f
  rcases hs with ⟨h0, rfl, rfl⟩ | hsa
  · rw [h0]
    rfl
  · rw [hsa]
    rfl

theorem deposit_run {s : EngineState} {c : Client} {t : TxId} {v av h : Value}
    (hs : s.accounts c = none ∧ av = 0 ∧ h = 0
        ∨ s.accounts c = some (.active ⟨av, h⟩)) :
    step s (.deposit c t v)
      = { accounts := s.accounts.update c (.active ⟨av + v, h⟩),
          store := s.store.insert t ⟨c, v, .undisputed⟩ } := by
  have hres := ensure_active_res_all hs
  have e1 : lsDeposit s.accounts c v
      = .ok (s.accounts.update c (.active ⟨av + v, h⟩)) := by
    unfold lsDeposit ensure_active_do
    rw [hres]
    rfl
  unfold step
  simp only [stepE]
  rw [e1]

theorem deposit_dispute_run {s : EngineState} {c : Client} {t : TxId} {v av h : Value}
    (hs : s.accounts c = none ∧ av = 0 ∧ h = 0
        ∨ s.accounts c = some (.active ⟨av, h⟩)) :
    step (step s (.deposit c t v)) (.dispute c t)
      = { accounts := (s.accounts.update c (.active ⟨av + v, h⟩)).update c
            (.active ⟨av, h + v⟩),
          store := (s.store.insert t ⟨c, v, .undisputed⟩).insert t ⟨c, v, .disputed⟩ } := by
  rw [deposit_run hs]
  unfold step
  simp only [stepE, Store.insert_self]
  have e2 : lsFreezeFunds (s.accounts.update c (.active ⟨av + v, h⟩)) c v
      = .ok ((s.accounts.update c (.active ⟨av + v, h⟩)).update c
          (.active ⟨av, h + v⟩)) := by
    unfold lsFreezeFunds ensure_active_do ensure_active_res
    rw [Accounts.update_self]
    simp [AccountInner.freeze_funds, liftAcc]
    rfl
  simp [e2]

/-! ### Claim theorems -/

/-- The state reached by processing
`Deposit(1,1,5); Dispute(1,1); Chargeback(1,1)` from the empty state:
client 1's account is `Frozen` with balances `(0, 0)`. -/
def frozenS : EngineState :=
  [Transaction.deposit 1 1 5, Transaction.dispute 1 1,
   Transaction.chargeback 1 1].foldl step initState

/-- C2 counterexample: the claim says every subsequent transaction for a
frozen client is rejected *with `AccountFrozen`*, but after
`Deposit(1,1,5); Dispute(1,1); Chargeback(1,1)` freezes client 1, the
subsequent `Dispute(1, 2)` is rejected with the store error `NotFound`
(the record is fetched before the account is consulted), not with
`AccountFrozen`. -/
theorem frozen_rejection_error_not_accountFrozen :
    (frozenS.accounts 1 = some (Account.frozen ⟨0, 0⟩))
    ∧ (stepE frozenS (.dispute 1 2)).1 = some (.store .notFound)
    ∧ some (EngineError.store .notFound) ≠ some (EngineError.state .accountFrozen) :=
  ⟨by decide, by decide, by decide⟩

/-- C2 (amended): freezing is terminal. Once client `c`'s account is
`Frozen` with balances `a`, any further stream of transactions leaves it
`Frozen` with balances `a`; every single transaction for `c` is rejected
with some error and leaves the whole worker state unchanged; deposits and
withdrawals for `c` are rejected with `AccountFrozen` specifically
(dispute-lifecycle events may instead fail with a store error, fetched
before the account is consulted). No operation returns the account to
`Active`. -/
theorem frozen_terminal {s : EngineState} {c : Client} {a : AccountInner}
    (hf : s.accounts c = some (.frozen a)) :
    (∀ L : List Transaction, (L.foldl step s).accounts c = some (.frozen a))
    ∧ (∀ tx : Transaction, tx.client = c → ∃ e, stepE s tx = (some e, s))
    ∧ (∀ t v, (stepE s (.deposit c t v)).1 = some (.state .accountFrozen)
        ∧ (stepE s (.withdrawal c t v)).1 = some (.state .accountFrozen)) := by
  refine ⟨fun L => foldl_frozen_stable L s hf, ?_, ?_⟩
  · intro tx hc
    exact stepE_frozen_rejected (by rw [hc]; exact hf)
  · intro t v
    constructor
    · have hd : lsDeposit s.accounts c v = .error .accountFrozen :=
        ensure_active_do_of_res_err (by rw [hf]; rfl)
      simp only [stepE]
      rw [hd]
    · have hd : lsWithdraw s.accounts c v = .error .accountFrozen :=
        ensure_active_do_of_res_err (by rw [hf]; rfl)
      simp only [stepE]
      rw [hd]

/-- Witness for C2: client 1 of `frozenS` is frozen with balances `(0,0)`;
a further withdrawal stream leaves it frozen unchanged, and a deposit for
client 1 is rejected with `AccountFrozen`. -/
theorem frozen_terminal_witness :
    (frozenS.accounts 1 = some (Account.frozen ⟨0, 0⟩))
    ∧ (([Transaction.withdrawal 1 3 1].foldl step frozenS).accounts 1
        = some (Account.frozen ⟨0, 0⟩))
    ∧ (stepE frozenS (.deposit 1 4 2)).1 = some (.state .accountFrozen) :=
  ⟨by decide,
   (frozen_terminal (s := frozenS) (c := 1) (a := ⟨0, 0⟩) (by decide)).1
     [Transaction.withdrawal 1 3 1],
   ((frozen_terminal (s := frozenS) (c := 1) (a := ⟨0, 0⟩) (by decide)).2.2 4 2).1⟩

/-! ### Parallelism: projection on one client and record provenance -/

/-- Compatibility of a pair of transactions for sharding: two deposits may
not share a `tx_id` across different clients (the shard store is keyed by
`tx_id` alone). -/
def depCompat : Transaction → Transaction → Bool
  | .deposit c1 t1 _, .deposit c2 t2 _ => t1 != t2 || c1 == c2
  | _, _ => true

/-- No two deposits of different clients in the stream share a `tx_id`. -/
def DepDisjoint (S : List Transaction) : Prop :=
  ∀ tx1 ∈ S, ∀ tx2 ∈ S, depCompat tx1 tx2 = true

theorem depDisjoint_client_eq {S : List Transaction}
    (hd : DepDisjoint S) {c1 : Client} {t : TxId} {v1 : Value}
    {c2 : Client} {v2 : Value}
    (h1 : Transaction.deposit c1 t v1 ∈ S)
    (h2 : Transaction.deposit c2 t v2 ∈ S) : c1 = c2 := by
  have hc := hd _ h1 _ h2
  simp only [depCompat, bne_self_eq_false, Bool.false_or, beq_iff_eq] at hc
  exact hc

/-- The part of the shard store belonging to client `c`: records whose
stored client is `c`. -/
def projStore (c : Client) (s : EngineState) (t : TxId) : Option StoreRec :=
  match s.store t with
  | some r => if r.client = c then some r else none
  | none => none

/-- Two shard states agree on everything client `c` can observe: the
client's account entry and the client's own store records. -/
def ProjEq (c : Client) (s1 s2 : EngineState) : Prop :=
  s1.accounts c = s2.accounts c ∧ ∀ t, projStore c s1 t = projStore c s2 t

theorem projEq_refl {c : Client} (s : EngineState) : ProjEq c s s :=
  ⟨rfl, fun _ => rfl⟩

theorem projEq_trans {c : Client} {s1 s2 s3 : EngineState}
    (h12 : ProjEq c s1 s2) (h23 : ProjEq c s2 s3) : ProjEq c s1 s3 :=
  ⟨h12.1.trans h23.1, fun t => (h12.2 t).trans (h23.2 t)⟩

/-- Provenance: every record of the store stems from a deposit of the
processed prefix (the status may have changed, never client or value). -/
def RecordsFrom (P : List Transaction) (s : EngineState) : Prop :=
  ∀ t r, s.store t = some r → Transaction.deposit r.client t r.value ∈ P

theorem recordsFrom_init (P : List Transaction) : RecordsFrom P initState :=
  fun _ _ h => Option.noConfusion h

theorem recordsFrom_step {P : List Transaction} {s : EngineState} (tx : Transaction)
    (h : RecordsFrom P s) : RecordsFrom (P ++ [tx]) (step s tx) := by
  have hmono : ∀ t r, s.store t = some r →
      Transaction.deposit r.client t r.value ∈ P ++ [tx] :=
    fun t r hr => List.mem_append_left _ (h t r hr)
  cases tx with
  | deposit client t' v =>
    unfold step
    simp only [stepE]
    cases hd : lsDeposit s.accounts client v with
    | error e => exact hmono
    | ok m =>
      intro t r hr
      rcases Store.insert_lookup hr with ⟨rfl, rfl⟩ | hold
      · exact List.mem_append_right _ (List.mem_singleton.mpr rfl)
      · exact hmono t r hold
  | withdrawal client t' v =>
    unfold step
    simp only [stepE]
    cases hd : lsWithdraw s.accounts client v with
    | error e => exact hmono
    | ok m => exact hmono
  | dispute client t' =>
    unfold step
    simp only [stepE]
    cases hst : s.store t' with
    | none => exact hmono
    | some r0 =>
      by_cases h1 : r0.status = .disputed
      · simp only [h1, if_true, ite_true, reduceIte]
        exact hmono
      · by_cases h2 : client ≠ r0.client
        · simp only [h1, if_false, ite_false, reduceIte]
          rw [if_pos h2]
          exact hmono
        · simp only [h1, if_false, ite_false, reduceIte]
          rw [if_neg h2]
          cases hd : lsFreezeFunds s.accounts client r0.value with
          | error e => exact hmono
          | ok m =>
            intro t r hr
            rcases Store.insert_lookup hr with ⟨rfl, rfl⟩ | hold
            · exact List.mem_append_left _ (h t r0 hst)
            · exact hmono t r hold
  | resolve client t' =>
    unfold step
    simp only [stepE]
    cases hst : s.store t' with
    | none => exact hmono
    | some r0 =>
      by_cases h1 : r0.status = .undisputed
      · simp only [h1, if_true, ite_true, reduceIte]
        exact hmono
      · by_cases h2 : client ≠ r0.client
        · simp only [h1, if_false, ite_false, reduceIte]
          rw [if_pos h2]
          exact hmono
        · simp only [h1, if_false, ite_false, reduceIte]
          rw [if_neg h2]
          cases hd : lsRelease s.accounts client r0.value with
          | error e => exact hmono
          | ok m => exact fun t r hr => hmono t r (Store.remove_lookup hr)
  | chargeback client t' =>
    unfold step
    simp only [stepE]
    cases hst : s.store t' with
    | none => exact hmono
    | some r0 =>
      by_cases h1 : r0.status = .undisputed
      · simp only [h1, if_true, ite_true, reduceIte]
        exact hmono
      · by_cases h2 : client ≠ r0.client
        · simp only [h1, if_false, ite_false, reduceIte]
          rw [if_pos h2]
          exact hmono
        · simp only [h1, if_false, ite_false, reduceIte]
          rw [if_neg h2]
          cases hd : lsChargeback s.accounts client r0.value with
          | error e => exact hmono
          | ok m =>
            obtain ⟨acc, hres, rfl⟩ := ensure_active_do_ok hd
            show RecordsFrom (P ++ [Transaction.chargeback client t'])
              (match lsFreezeAccount (s.accounts.update client acc) client with
                | Except.error e => ((some (EngineError.state e) : Option EngineError),
                    (⟨s.accounts.update client acc, s.store⟩ : EngineState))
                | Except.ok m2 =>
                  ((none : Option EngineError),
                   (⟨m2, s.store.remove t'⟩ : EngineState))).2
            cases hf : lsFreezeAccount (s.accounts.update client acc) client with
            | error e => exact hmono
            | ok m2 => exact fun t r hr => hmono t r (Store.remove_lookup hr)

theorem liftAcc_ok {r : Except AccountError AccountInner} {acc : Account}
    (h : liftAcc r = .ok acc) : ∃ x, r = .ok x ∧ acc = .active x := by
  cases r with
  | ok x =>
    have h2 : Except.ok (Account.active x) = Except.ok acc := h
    injection h2 with h3
    exact ⟨x, rfl, h3.symm⟩
  | error e =>
    have h2 : (Except.error (StateError.account e) : Except StateError Account)
        = .ok acc := h
    cases h2

theorem ensure_res_liftAcc_ok {cur : Option Account} {b : Bool}
    {g : AccountInner → Except AccountError AccountInner} {acc : Account}
    (h : ensure_active_res cur b (fun i => liftAcc (g i)) = .ok acc) :
    ∃ x, acc = .active x := by
  cases cur with
  | none =>
    cases b with
    | false =>
      have h2 : (Except.error StateError.accountNotFound : Except StateError Account)
          = .ok acc := h
      cases h2
    | true =>
      obtain ⟨x, -, hx⟩ := liftAcc_ok (r := g ⟨0, 0⟩) h
      exact ⟨x, hx⟩
  | some a0 =>
    cases a0 with
    | active i =>
      obtain ⟨x, -, hx⟩ := liftAcc_ok (r := g i) h
      exact ⟨x, hx⟩
    | frozen i =>
      have h2 : (Except.error StateError.accountFrozen : Except StateError Account)
          = .ok acc := h
      cases h2

theorem lsFreezeAccount_after_update {a : Accounts} {cl : Client} {x : AccountInner} :
    lsFreezeAccount (a.update cl (.active x)) cl
      = .ok ((a.update cl (.active x)).update cl (.frozen x)) := by
  unfold lsFreezeAccount ensure_active_do
  rw [Accounts.update_self]
  rfl

theorem projStore_insert_eq {c : Client} {s1 s2 : EngineState} {t : TxId}
    {r : StoreRec} (hps : ∀ u, projStore c s1 u = projStore c s2 u)
    (m1 m2 : Accounts) :
    ∀ u, projStore c ⟨m1, s1.store.insert t r⟩ u
      = projStore c ⟨m2, s2.store.insert t r⟩ u := by
  intro u
  unfold projStore
  by_cases hu : u = t
  · subst hu
    simp only [Store.insert_self]
  · simp only [Store.insert_ne _ _ hu]
    exact hps u

theorem projStore_remove_eq {c : Client} {s1 s2 : EngineState} {t : TxId}
    (hps : ∀ u, projStore c s1 u = projStore c s2 u) (m1 m2 : Accounts) :
    ∀ u, projStore c ⟨m1, s1.store.remove t⟩ u
      = projStore c ⟨m2, s2.store.remove t⟩ u := by
  intro u
  unfold projStore
  by_cases hu : u = t
  · subst hu
    simp only [Store.remove_self]
  · simp only [Store.remove_ne _ hu]
    exact hps u

theorem projStore_insert_alien {c : Client} {s : EngineState} {t : TxId}
    {r : StoreRec} (hr : r.client ≠ c)
    (halien : ∀ r0, s.store t = some r0 → r0.client ≠ c) (m1 : Accounts) :
    ∀ u, projStore c ⟨m1, s.store.insert t r⟩ u = projStore c s u := by
  intro u
  unfold projStore
  by_cases hu : u = t
  · subst hu
    simp only [Store.insert_self]
    rw [if_neg hr]
    cases h0 : s.store u with
    | none => rfl
    | some r0 => simp [halien r0 h0]
  · simp only [Store.insert_ne _ _ hu]

theorem projStore_remove_alien {c : Client} {s : EngineState} {t : TxId}
    (halien : ∀ r0, s.store t = some r0 → r0.client ≠ c) (m1 : Accounts) :
    ∀ u, projStore c ⟨m1, s.store.remove t⟩ u = projStore c s u := by
  intro u
  unfold projStore
  by_cases hu : u = t
  · subst hu
    simp only [Store.remove_self]
    cases h0 : s.store u with
    | none => rfl
    | some r0 => simp [halien r0 h0]
  · simp only [Store.remove_ne _ hu]

/-- Processing one of client `c`'s own transactions in two shard states
that agree on everything `c` observes yields states that again agree:
the step reads only `c`'s account entry and `c`'s own store records. -/
theorem projEq_step_own {c : Client} {s1 s2 : EngineState} {tx : Transaction}
    (hc : tx.client = c) (hp : ProjEq c s1 s2) :
    ProjEq c (step s1 tx) (step s2 tx) := by
  obtain ⟨hpa, hps⟩ := hp
  cases tx with
  | deposit client t v =>
    have hcc : client = c := hc
    subst hcc
    unfold step
    simp only [stepE]
    unfold lsDeposit ensure_active_do
    rw [hpa]
    cases hres : ensure_active_res (s2.accounts client) true
        (fun i => liftAcc (i.deposit v)) with
    | error e => exact ⟨hpa, hps⟩
    | ok acc =>
      refine ⟨?_, projStore_insert_eq hps _ _⟩
      show (s1.accounts.update client acc) client = (s2.accounts.update client acc) client
      rw [Accounts.update_self, Accounts.update_self]
  | withdrawal client t v =>
    have hcc : client = c := hc
    subst hcc
    unfold step
    simp only [stepE]
    unfold lsWithdraw ensure_active_do
    rw [hpa]
    cases hres : ensure_active_res (s2.accounts client) false
        (fun i => liftAcc (i.withdraw v)) with
    | error e => exact ⟨hpa, hps⟩
    | ok acc =>
      refine ⟨?_, hps⟩
      show (s1.accounts.update client acc) client = (s2.accounts.update client acc) client
      rw [Accounts.update_self, Accounts.update_self]
  | dispute client t =>
    have hcc : client = c := hc
    subst hcc
    have hpt := hps t
    unfold projStore at hpt
    unfold step
    simp only [stepE]
    cases h1 : s1.store t with
    | none =>
      cases h2 : s2.store t with
      | none => exact ⟨hpa, hps⟩
      | some r2 =>
        simp only [h1, h2] at hpt
        by_cases hc2 : r2.client = client
        · rw [if_pos hc2] at hpt
          exact Option.noConfusion hpt
        · by_cases hst2 : r2.status = .disputed
          · simp only [hst2, if_true, ite_true, reduceIte]
            exact ⟨hpa, hps⟩
          · simp only [hst2, if_false, ite_false, reduceIte]
            rw [if_pos (show client ≠ r2.client from fun he => hc2 he.symm)]
            exact ⟨hpa, hps⟩
    | some r1 =>
      cases h2 : s2.store t with
      | none =>
        simp only [h1, h2] at hpt
        by_cases hc1 : r1.client = client
        · rw [if_pos hc1] at hpt
          exact Option.noConfusion hpt
        · by_cases hst1 : r1.status = .disputed
          · simp only [hst1, if_true, ite_true, reduceIte]
            exact ⟨hpa, hps⟩
          · simp only [hst1, if_false, ite_false, reduceIte]
            rw [if_pos (show client ≠ r1.client from fun he => hc1 he.symm)]
            exact ⟨hpa, hps⟩
      | some r2 =>
        simp only [h1, h2] at hpt
        by_cases hc1 : r1.client = client
        · rw [if_pos hc1] at hpt
          by_cases hc2 : r2.client = client
          · rw [if_pos hc2] at hpt
            injection hpt with hr12
            subst hr12
            by_cases hst1 : r1.status = .disputed
            · simp only [hst1, if_true, ite_true, reduceIte]
              exact ⟨hpa, hps⟩
            · simp only [hst1, if_false, ite_false, reduceIte]
              rw [if_neg (show ¬ client ≠ r1.client from fun hne => hne hc1.symm),
                  if_neg (show ¬ client ≠ r1.client from fun hne => hne hc1.symm)]
              unfold lsFreezeFunds ensure_active_do
              rw [hpa]
              cases hres : ensure_active_res (s2.accounts client) false
                  (fun i => liftAcc (i.freeze_funds r1.value)) with
              | error e => exact ⟨hpa, hps⟩
              | ok acc =>
                refine ⟨?_, projStore_insert_eq hps _ _⟩
                show (s1.accounts.update client acc) client
                  = (s2.accounts.update client acc) client
                rw [Accounts.update_self, Accounts.update_self]
          · rw [if_neg hc2] at hpt
            exact Option.noConfusion hpt
        · rw [if_neg hc1] at hpt
          by_cases hc2 : r2.client = client
          · rw [if_pos hc2] at hpt
            exact Option.noConfusion hpt.symm
          · by_cases hst1 : r1.status = .disputed
            · simp only [hst1, if_true, ite_true, reduceIte]
              by_cases hst2 : r2.status = .disputed
              · simp only [hst2, if_true, ite_true, reduceIte]
                exact ⟨hpa, hps⟩
              · simp only [hst2, if_false, ite_false, reduceIte]
                rw [if_pos (show client ≠ r2.client from fun he => hc2 he.symm)]
                exact ⟨hpa, hps⟩
            · simp only [hst1, if_false, ite_false, reduceIte]
              rw [if_pos (show client ≠ r1.client from fun he => hc1 he.symm)]
              by_cases hst2 : r2.status = .disputed
              · simp only [hst2, if_true, ite_true, reduceIte]
                exact ⟨hpa, hps⟩
              · simp only [hst2, if_false, ite_false, reduceIte]
                rw [if_pos (show client ≠ r2.client from fun he => hc2 he.symm)]
                exact ⟨hpa, hps⟩
  | resolve client t =>
    have hcc : client = c := hc
    subst hcc
    have hpt := hps t
    unfold projStore at hpt
    unfold step
    simp only [stepE]
    cases h1 : s1.store t with
    | none =>
      cases h2 : s2.store t with
      | none => exact ⟨hpa, hps⟩
      | some r2 =>
        simp only [h1, h2] at hpt
        by_cases hc2 : r2.client = client
        · rw [if_pos hc2] at hpt
          exact Option.noConfusion hpt
        · by_cases hst2 : r2.status = .undisputed
          · simp only [hst2, if_true, ite_true, reduceIte]
            exact ⟨hpa, hps⟩
          · simp only [hst2, if_false, ite_false, reduceIte]
            rw [if_pos (show client ≠ r2.client from fun he => hc2 he.symm)]
            exact ⟨hpa, hps⟩
    | some r1 =>
      cases h2 : s2.store t with
      | none =>
        simp only [h1, h2] at hpt
        by_cases hc1 : r1.client = client
        · rw [if_pos hc1] at hpt
          exact Option.noConfusion hpt
        · by_cases hst1 : r1.status = .undisputed
          · simp only [hst1, if_true, ite_true, reduceIte]
            exact ⟨hpa, hps⟩
          · simp only [hst1, if_false, ite_false, reduceIte]
            rw [if_pos (show client ≠ r1.client from fun he => hc1 he.symm)]
            exact ⟨hpa, hps⟩
      | some r2 =>
        simp only [h1, h2] at hpt
        by_cases hc1 : r1.client = client
        · rw [if_pos hc1] at hpt
          by_cases hc2 : r2.client = client
          · rw [if_pos hc2] at hpt
            injection hpt with hr12
            subst hr12
            by_cases hst1 : r1.status = .undisputed
            · simp only [hst1, if_true, ite_true, reduceIte]
              exact ⟨hpa, hps⟩
            · simp only [hst1, if_false, ite_false, reduceIte]
              rw [if_neg (show ¬ client ≠ r1.client from fun hne => hne hc1.symm),
                  if_neg (show ¬ client ≠ r1.client from fun hne => hne hc1.symm)]
              unfold lsRelease ensure_active_do
              rw [hpa]
              cases hres : ensure_active_res (s2.accounts client) false
                  (fun i => liftAcc (i.release_funds r1.value)) with
              | error e => exact ⟨hpa, hps⟩
              | ok acc =>
                refine ⟨?_, projStore_remove_eq hps _ _⟩
                show (s1.accounts.update client acc) client
                  = (s2.accounts.update client acc) client
                rw [Accounts.update_self, Accounts.update_self]
          · rw [if_neg hc2] at hpt
            exact Option.noConfusion hpt
        · rw [if_neg hc1] at hpt
          by_cases hc2 : r2.client = client
          · rw [if_pos hc2] at hpt
            exact Option.noConfusion hpt.symm
          · by_cases hst1 : r1.status = .undisputed
            · simp only [hst1, if_true, ite_true, reduceIte]
              by_cases hst2 : r2.status = .undisputed
              · simp only [hst2, if_true, ite_true, reduceIte]
                exact ⟨hpa, hps⟩
              · simp only [hst2, if_false, ite_false, reduceIte]
                rw [if_pos (show client ≠ r2.client from fun he => hc2 he.symm)]
                exact ⟨hpa, hps⟩
            · simp only [hst1, if_false, ite_false, reduceIte]
              rw [if_pos (show client ≠ r1.client from fun he => hc1 he.symm)]
              by_cases hst2 : r2.status = .undisputed
              · simp only [hst2, if_true, ite_true, reduceIte]
                exact ⟨hpa, hps⟩
              · simp only [hst2, if_false, ite_false, reduceIte]
                rw [if_pos (show client ≠ r2.client from fun he => hc2 he.symm)]
                exact ⟨hpa, hps⟩
  | chargeback client t =>
    have hcc : client = c := hc
    subst hcc
    have hpt := hps t
    unfold projStore at hpt
    unfold step
    simp only [stepE]
    cases h1 : s1.store t with
    | none =>
      cases h2 : s2.store t with
      | none => exact ⟨hpa, hps⟩
      | some r2 =>
        simp only [h1, h2] at hpt
        by_cases hc2 : r2.client = client
        · rw [if_pos hc2] at hpt
          exact Option.noConfusion hpt
        · by_cases hst2 : r2.status = .undisputed
          · simp only [hst2, if_true, ite_true, reduceIte]
            exact ⟨hpa, hps⟩
          · simp only [hst2, if_false, ite_false, reduceIte]
            rw [if_pos (show client ≠ r2.client from fun he => hc2 he.symm)]
            exact ⟨hpa, hps⟩
    | some r1 =>
      cases h2 : s2.store t with
      | none =>
        simp only [h1, h2] at hpt
        by_cases hc1 : r1.client = client
        · rw [if_pos hc1] at hpt
          exact Option.noConfusion hpt
        · by_cases hst1 : r1.status = .undisputed
          · simp only [hst1, if_true, ite_true, reduceIte]
            exact ⟨hpa, hps⟩
          · simp only [hst1, if_false, ite_false, reduceIte]
            rw [if_pos (show client ≠ r1.client from fun he => hc1 he.symm)]
            exact ⟨hpa, hps⟩
      | some r2 =>
        simp only [h1, h2] at hpt
        by_cases hc1 : r1.client = client
        · rw [if_pos hc1] at hpt
          by_cases hc2 : r2.client = client
          · rw [if_pos hc2] at hpt
            injection hpt with hr12
            subst hr12
            by_cases hst1 : r1.status = .undisputed
            · simp only [hst1, if_true, ite_true, reduceIte]
              exact ⟨hpa, hps⟩
            · simp only [hst1, if_false, ite_false, reduceIte]
              rw [if_neg (show ¬ client ≠ r1.client from fun hne => hne hc1.symm),
                  if_neg (show ¬ client ≠ r1.client from fun hne => hne hc1.symm)]
              unfold lsChargeback ensure_active_do
              rw [hpa]
              cases hres : ensure_active_res (s2.accounts client) false
                  (fun i => liftAcc (i.chargeback r1.value)) with
              | error e => exact ⟨hpa, hps⟩
              | ok acc =>
                obtain ⟨x, rfl⟩ := ensure_res_liftAcc_ok hres
                rw [show (Except.ok (Account.active x)).map (Accounts.update s1.accounts client)
                    = Except.ok (s1.accounts.update client (.active x)) from rfl,
                  show (Except.ok (Account.active x)).map (Accounts.update s2.accounts client)
                    = Except.ok (s2.accounts.update client (.active x)) from rfl]
                simp only [lsFreezeAccount_after_update]
                refine ⟨?_, projStore_remove_eq hps _ _⟩
                show ((s1.accounts.update client (.active x)).update client (.frozen x)) client
                  = ((s2.accounts.update client (.active x)).update client (.frozen x)) client
                rw [Accounts.update_self, Accounts.update_self]
          · rw [if_neg hc2] at hpt
            exact Option.noConfusion hpt
        · rw [if_neg hc1] at hpt
          by_cases hc2 : r2.client = client
          · rw [if_pos hc2] at hpt
            exact Option.noConfusion hpt.symm
          · by_cases hst1 : r1.status = .undisputed
            · simp only [hst1, if_true, ite_true, reduceIte]
              by_cases hst2 : r2.status = .undisputed
              · simp only [hst2, if_true, ite_true, reduceIte]
                exact ⟨hpa, hps⟩
              · simp only [hst2, if_false, ite_false, reduceIte]
                rw [if_pos (show client ≠ r2.client from fun he => hc2 he.symm)]
                exact ⟨hpa, hps⟩
            · simp only [hst1, if_false, ite_false, reduceIte]
              rw [if_pos (show client ≠ r1.client from fun he => hc1 he.symm)]
              by_cases hst2 : r2.status = .undisputed
              · simp only [hst2, if_true, ite_true, reduceIte]
                exact ⟨hpa, hps⟩
              · simp only [hst2, if_false, ite_false, reduceIte]
                rw [if_pos (show client ≠ r2.client from fun he => hc2 he.symm)]
                exact ⟨hpa, hps⟩

/-- Processing a transaction of another client leaves everything client `c`
observes unchanged, provided no deposit of another client overwrites one of
`c`'s store records (the compatibility hypothesis). -/
theorem projEq_step_alien {c : Client} {s : EngineState} {tx : Transaction}
    (hc : tx.client ≠ c)
    (hcompat : ∀ c' t v, tx = Transaction.deposit c' t v →
      ∀ r, s.store t = some r → r.client = c') :
    ProjEq c (step s tx) s := by
  cases tx with
  | deposit client t v =>
    have hcl : client ≠ c := hc
    unfold step
    simp only [stepE]
    cases hd : lsDeposit s.accounts client v with
    | error e => exact projEq_refl s
    | ok m =>
      obtain ⟨acc, -, rfl⟩ := ensure_active_do_ok hd
      refine ⟨Accounts.update_ne _ _ (Ne.symm hcl), ?_⟩
      exact projStore_insert_alien
        (show ((⟨client, v, .undisputed⟩ : StoreRec)).client ≠ c from hcl)
        (fun r0 h0 => by rw [hcompat client t v rfl r0 h0]; exact hcl) _
  | withdrawal client t v =>
    unfold step
    simp only [stepE]
    cases hd : lsWithdraw s.accounts client v with
    | error e => exact projEq_refl s
    | ok m =>
      obtain ⟨acc, -, rfl⟩ := ensure_active_do_ok hd
      exact ⟨Accounts.update_ne _ _ (Ne.symm hc), fun u => rfl⟩
  | dispute client t =>
    have hcl : client ≠ c := hc
    unfold step
    simp only [stepE]
    cases hst : s.store t with
    | none => exact projEq_refl s
    | some r =>
      by_cases h1 : r.status = .disputed
      · simp only [h1, if_true, ite_true, reduceIte]
        exact projEq_refl s
      · simp only [h1, if_false, ite_false, reduceIte]
        by_cases h2 : client ≠ r.client
        · rw [if_pos h2]
          exact projEq_refl s
        · rw [if_neg h2]
          have hrc : client = r.client := not_ne_iff.mp h2
          have halien : ∀ r0, s.store t = some r0 → r0.client ≠ c := by
            intro r0 h0
            rw [hst] at h0
            cases h0
            rw [← hrc]
            exact hcl
          cases hd : lsFreezeFunds s.accounts client r.value with
          | error e => exact projEq_refl s
          | ok m =>
            obtain ⟨acc, -, rfl⟩ := ensure_active_do_ok hd
            refine ⟨Accounts.update_ne _ _ (Ne.symm hcl), ?_⟩
            exact projStore_insert_alien
              (show ({ r with status := TxStatus.disputed } : StoreRec).client ≠ c from by
                show r.client ≠ c
                rw [← hrc]
                exact hcl)
              halien _
  | resolve client t =>
    have hcl : client ≠ c := hc
    unfold step
    simp only [stepE]
    cases hst : s.store t with
    | none => exact projEq_refl s
    | some r =>
      by_cases h1 : r.status = .undisputed
      · simp only [h1, if_true, ite_true, reduceIte]
        exact projEq_refl s
      · simp only [h1, if_false, ite_false, reduceIte]
        by_cases h2 : client ≠ r.client
        · rw [if_pos h2]
          exact projEq_refl s
        · rw [if_neg h2]
          have hrc : client = r.client := not_ne_iff.mp h2
          have halien : ∀ r0, s.store t = some r0 → r0.client ≠ c := by
            intro r0 h0
            rw [hst] at h0
            cases h0
            rw [← hrc]
            exact hcl
          cases hd : lsRelease s.accounts client r.value with
          | error e => exact projEq_refl s
          | ok m =>
            obtain ⟨acc, -, rfl⟩ := ensure_active_do_ok hd
            exact ⟨Accounts.update_ne _ _ (Ne.symm hcl), projStore_remove_alien halien _⟩
  | chargeback client t =>
    have hcl : client ≠ c := hc
    unfold step
    simp only [stepE]
    cases hst : s.store t with
    | none => exact projEq_refl s
    | some r =>
      by_cases h1 : r.status = .undisputed
      · simp only [h1, if_true, ite_true, reduceIte]
        exact projEq_refl s
      · simp only [h1, if_false, ite_false, reduceIte]
        by_cases h2 : client ≠ r.client
        · rw [if_pos h2]
          exact projEq_refl s
        · rw [if_neg h2]
          have hrc : client = r.client := not_ne_iff.mp h2
          have halien : ∀ r0, s.store t = some r0 → r0.client ≠ c := by
            intro r0 h0
            rw [hst] at h0
            cases h0
            rw [← hrc]
            exact hcl
          cases hd : lsChargeback s.accounts client r.value with
          | error e => exact projEq_refl s
          | ok m =>
            obtain ⟨acc, -, rfl⟩ := ensure_active_do_ok hd
            show ProjEq c (match lsFreezeAccount (s.accounts.update client acc) client with
              | Except.error e => ((some (EngineError.state e) : Option EngineError),
                  (⟨s.accounts.update client acc, s.store⟩ : EngineState))
              | Except.ok m2 =>
                ((none : Option EngineError),
                 (⟨m2, s.store.remove t⟩ : EngineState))).2 s
            cases hf : lsFreezeAccount (s.accounts.update client acc) client with
            | error e =>
              exact ⟨Accounts.update_ne _ _ (Ne.symm hcl), fun u => rfl⟩
            | ok m2 =>
              obtain ⟨acc2, -, rfl⟩ := ensure_active_do_ok hf
              refine ⟨?_, projStore_remove_alien halien _⟩
              show ((s.accounts.update client acc).update client acc2) c = s.accounts c
              rw [Accounts.update_ne _ _ (Ne.symm hcl)]
              exact Accounts.update_ne _ _ (Ne.symm hcl)

instance decDepDisjoint (S : List Transaction) : Decidable (DepDisjoint S) :=
  inferInstanceAs (Decidable (∀ tx1 ∈ S, ∀ tx2 ∈ S, depCompat tx1 tx2 = true))

/-- Main simulation: folding a shard's stream from a state that agrees with
a reference state on client `c` gives the same result for `c` as folding
only `c`'s subsequence from the reference state, provided deposits of
different clients never collide on a `tx_id`. -/
theorem foldl_filter_proj {c : Client} :
    ∀ (L P : List Transaction) (s1 s2 : EngineState),
      DepDisjoint (P ++ L) → RecordsFrom P s1 → ProjEq c s1 s2 →
      ProjEq c (L.foldl step s1)
        ((L.filter (fun tx => tx.client == c)).foldl step s2) := by
  intro L
  induction L with
  | nil => intro P s1 s2 _ _ hp; exact hp
  | cons tx L ih =>
    intro P s1 s2 hd hrec hp
    have hdd : DepDisjoint ((P ++ [tx]) ++ L) := by
      rw [List.append_assoc, List.singleton_append]
      exact hd
    have hrec2 : RecordsFrom (P ++ [tx]) (step s1 tx) := recordsFrom_step tx hrec
    have hcompat : ∀ c' t v, tx = Transaction.deposit c' t v →
        ∀ r, s1.store t = some r → r.client = c' := by
      intro c' t v htx r hr
      have hmem1 : Transaction.deposit r.client t r.value ∈ P ++ tx :: L :=
        List.mem_append_left _ (hrec t r hr)
      have hmem2 : tx ∈ P ++ tx :: L :=
        List.mem_append_right _ (List.mem_cons_self tx L)
      subst htx
      exact depDisjoint_client_eq hd hmem1 hmem2
    simp only [List.foldl_cons, List.filter_cons]
    by_cases hbc : (tx.client == c) = true
    · rw [if_pos hbc]
      rw [List.foldl_cons]
      exact ih (P ++ [tx]) _ _ hdd hrec2 (projEq_step_own (eq_of_beq hbc) hp)
    · rw [if_neg hbc]
      have hc : tx.client ≠ c := by
        intro he
        exact hbc (by rw [he]; exact beq_self_eq_true c)
      exact ih (P ++ [tx]) _ _ hdd hrec2
        (projEq_trans (projEq_step_alien hc hcompat) hp)

/-- With at least one worker and cross-client `tx_id`-disjoint deposits,
the engine's result at client `c` equals the sequential single-client run
on `c`'s subsequence of the stream. -/
theorem runEngine_eq_clientRun {S : List Transaction} {n : Nat} {c : Client}
    (hn : 0 < n) (hd : DepDisjoint S) :
    runEngine S n c = (clientRun c S).accounts c := by
  rw [runEngine_eq_shardRun hn]
  have hfil : (shardStream n (c % n) S).filter (fun tx => tx.client == c)
      = S.filter (fun tx => tx.client == c) := by
    unfold shardStream
    rw [List.filter_filter]
    apply List.filter_congr
    intro tx _
    by_cases h : tx.client = c
    · subst h
      simp
    · simp [h]
  have hdd : DepDisjoint ([] ++ shardStream n (c % n) S) := by
    simp only [List.nil_append]
    intro tx1 h1 tx2 h2
    exact hd tx1 (List.mem_of_mem_filter h1) tx2 (List.mem_of_mem_filter h2)
  have hmain := foldl_filter_proj (c := c) (shardStream n (c % n) S) [] initState
    initState hdd (recordsFrom_init []) (projEq_refl (c := c) initState)
  unfold shardRun clientRun
  rw [← hfil]
  exact hmain.1

/-- C1 counterexample: the claim quantifies over every stream, but when two
deposits of different clients share a `tx_id` the worker count is
observable. On
`Deposit(0,7,5); Deposit(1,7,3); Dispute(0,7)` a single worker stores both
deposits in one `tx_id`-keyed store, the second overwrites the first, the
dispute is rejected with `MismatchedClient` and client 0 keeps
`(available 5, held 0)`; with two workers the deposits land in different
shards and the dispute succeeds, leaving client 0 with
`(available 0, held 5)`. -/
theorem parallelism_fails_on_txid_collision :
    (runEngine [Transaction.deposit 0 7 5, Transaction.deposit 1 7 3,
        Transaction.dispute 0 7] 1 0 = some (Account.active ⟨5, 0⟩))
    ∧ (runEngine [Transaction.deposit 0 7 5, Transaction.deposit 1 7 3,
        Transaction.dispute 0 7] 2 0 = some (Account.active ⟨0, 5⟩))
    ∧ runEngine [Transaction.deposit 0 7 5, Transaction.deposit 1 7 3,
        Transaction.dispute 0 7] 1 0
      ≠ runEngine [Transaction.deposit 0 7 5, Transaction.deposit 1 7 3,
        Transaction.dispute 0 7] 2 0 :=
  ⟨by decide, by decide, by decide⟩

/-- C1 (amended): shard-parallelism equivalence for streams whose deposits
do not share a `tx_id` across different clients. For every such stream and
all worker counts `n, m ≥ 1`, the engine produces the same final account
state for every client — routing by `client mod n` sends all of a client's
transactions to one shard in stream order, and under the disjointness
hypothesis no other client's transaction can touch a record of `c`. -/
theorem parallelism_is_correct (S : List Transaction) (n m : Nat)
    (hn : 1 ≤ n) (hm : 1 ≤ m) (hd : DepDisjoint S) :
    ∀ c, runEngine S n c = runEngine S m c := by
  intro c
  rw [runEngine_eq_clientRun hn hd, runEngine_eq_clientRun hm hd]

/-- Witness for C1: on the collision-free stream
`Deposit(0,7,5); Deposit(1,8,3); Dispute(0,7)`, one worker and two workers
agree at client 0 (and the common value is `(available 0, held 5)`). -/
theorem parallelism_is_correct_witness :
    DepDisjoint [Transaction.deposit 0 7 5, Transaction.deposit 1 8 3,
        Transaction.dispute 0 7]
    ∧ runEngine [Transaction.deposit 0 7 5, Transaction.deposit 1 8 3,
        Transaction.dispute 0 7] 1 0
      = runEngine [Transaction.deposit 0 7 5, Transaction.deposit 1 8 3,
        Transaction.dispute 0 7] 2 0
    ∧ runEngine [Transaction.deposit 0 7 5, Transaction.deposit 1 8 3,
        Transaction.dispute 0 7] 1 0 = some (Account.active ⟨0, 5⟩) :=
  ⟨by decide,
   parallelism_is_correct [Transaction.deposit 0 7 5, Transaction.deposit 1 8 3,
     Transaction.dispute 0 7] 1 2 (le_refl 1) (by norm_num) (by decide) 0,
   by decide⟩

/-- C5: funds conservation under resolve. If client `c`'s account is absent
or `Active` with non-negative held funds, then processing
`Deposit(c,t,v); Dispute(c,t); Resolve(c,t)` with `v ≥ 0` returns the
account to exactly its pre-dispute state, the state just after the deposit,
and that state is `Active` with `available` increased by `v`. -/
theorem resolve_restores {s : EngineState} {c : Client} {t : TxId} {v av h : Value}
    (hv : 0 ≤ v) (hh : 0 ≤ h)
    (hs : s.accounts c = none ∧ av = 0 ∧ h = 0
        ∨ s.accounts c = some (.active ⟨av, h⟩)) :
    (step (step (step s (.deposit c t v)) (.dispute c t)) (.resolve c t)).accounts c
      = (step s (.deposit c t v)).accounts c
    ∧ (step s (.deposit c t v)).accounts c = some (Account.active ⟨av + v, h⟩) := by
  have s1acc : (step s (.deposit c t v)).accounts c = some (Account.active ⟨av + v, h⟩) := by
    rw [deposit_run hs]
    exact Accounts.update_self _ _ _
  refine ⟨?_, s1acc⟩
  have hg : ¬ (h + v < v) := by linarith
  have e3 : lsRelease ((s.accounts.update c (.active ⟨av + v, h⟩)).update c
        (.active ⟨av, h + v⟩)) c v
      = .ok (((s.accounts.update c (.active ⟨av + v, h⟩)).update c
          (.active ⟨av, h + v⟩)).update c
          (.active ⟨av + v, h⟩)) := by
    unfold lsRelease ensure_active_do ensure_active_res
    rw [Accounts.update_self]
    simp [AccountInner.release_funds, hg, liftAcc]
    rfl
  have final : (step (step (step s (.deposit c t v)) (.dispute c t)) (.resolve c t)).accounts c
      = some (Account.active ⟨av + v, h⟩) := by
    rw [deposit_dispute_run hs]
    unfold step
    simp only [stepE, Store.insert_self]
    simp [e3, Accounts.update_self]
  rw [final, s1acc]

/-- C6: chargeback freezes and debits. If client `c`'s account is `Active`
with balances `(av, h)` (or absent, with `av = h = 0`) and `h ≥ 0`, then
processing `Deposit(c,t,v); Dispute(c,t); Chargeback(c,t)` with `v ≥ 0`
leaves the account `Frozen` with exactly its pre-deposit balances: the
deposited-then-disputed funds are removed, not returned. -/
theorem chargeback_freezes {s : EngineState} {c : Client} {t : TxId} {v av h : Value}
    (hv : 0 ≤ v) (hh : 0 ≤ h)
    (hs : s.accounts c = none ∧ av = 0 ∧ h = 0
        ∨ s.accounts c = some (.active ⟨av, h⟩)) :
    (step (step (step s (.deposit c t v)) (.dispute c t)) (.chargeback c t)).accounts c
      = some (Account.frozen ⟨av, h⟩) := by
  have hg : ¬ (h + v < v) := by linarith
  have e3 : lsChargeback ((s.accounts.update c (.active ⟨av + v, h⟩)).update c
        (.active ⟨av, h + v⟩)) c v
      = .ok (((s.accounts.update c (.active ⟨av + v, h⟩)).update c
          (.active ⟨av, h + v⟩)).update c
          (.active ⟨av, h⟩)) := by
    unfold lsChargeback ensure_active_do ensure_active_res
    rw [Accounts.update_self]
    simp [AccountInner.chargeback, hg, liftAcc]
    rfl
  have e4 : lsFreezeAccount (((s.accounts.update c (.active ⟨av + v, h⟩)).update c
        (.active ⟨av, h + v⟩)).update c
        (.active ⟨av, h⟩)) c
      = .ok ((((s.accounts.update c (.active ⟨av + v, h⟩)).update c
          (.active ⟨av, h + v⟩)).update c
          (.active ⟨av, h⟩)).update c
          (.frozen ⟨av, h⟩)) := by
    unfold lsFreezeAccount ensure_active_do ensure_active_res
    rw [Accounts.update_self]
    rfl
  rw [deposit_dispute_run hs]
  unfold step
  simp only [stepE, Store.insert_self]
  simp [e3, e4, Accounts.update_self]

/-- Witness for C5: from the empty state, `Deposit(1,2,5); Dispute(1,2);
Resolve(1,2)` leaves client 1 exactly in the post-deposit state
`Active (available 5, held 0)`. -/
theorem resolve_restores_witness :
    ((0 : Value) ≤ 5)
    ∧ ((step (step (step initState (.deposit 1 2 5)) (.dispute 1 2)) (.resolve 1 2)).accounts 1
        = (step initState (.deposit 1 2 5)).accounts 1
      ∧ (step initState (.deposit 1 2 5)).accounts 1 = some (Account.active ⟨0 + 5, 0⟩)) :=
  ⟨by norm_num, resolve_restores (by norm_num) (le_refl 0) (Or.inl ⟨rfl, rfl, rfl⟩)⟩

/-- Witness for C6, matching the spec's scenario 3: starting from an account
with available 10 (after `Deposit(1,1,10)`), processing
`Deposit(1,2,1); Dispute(1,2); Chargeback(1,2)` leaves client 1 `Frozen`
with available 10 and held 0. -/
theorem chargeback_freezes_witness :
    ((step initState (.deposit 1 1 10)).accounts 1 = some (.active ⟨10, 0⟩))
    ∧ (step (step (step (step initState (.deposit 1 1 10)) (.deposit 1 2 1))
          (.dispute 1 2)) (.chargeback 1 2)).accounts 1
      = some (Account.frozen ⟨10, 0⟩) :=
  ⟨by decide, chargeback_freezes (by norm_num) (le_refl 0) (Or.inr (by decide))⟩

/-- The Deposit arm of `Worker::process_tx` (`engine.rs`), with the physical
outcome of the store insert made explicit: `insertOk = false` models
`self.store.insert(tx_id, tx)` failing with an infrastructure error (spec §5,
e.g. disk full while inserting). As in the source, the in-memory
`self.local_state.deposit(client, value)?` runs first; the store insert runs
only if the account update succeeded, and its failure propagates after the
account map has already been written. -/
def depositStep (insertOk : Bool) (s : EngineState) (client : Client) (t : TxId) (v : Value) :
    Option EngineError × EngineState :=
  match lsDeposit s.accounts client v with
  | .error e => (some (.state e), s)
  | .ok m =>
    if insertOk then
      (none, { accounts := m, store := s.store.insert t ⟨client, v, .undisputed⟩ })
    else (some (.store .ioFailure), { accounts := m, store := s.store })

/-- With a successful insert, `depositStep` agrees with the Deposit arm of
`stepE`. -/
theorem depositStep_true_eq_stepE (s : EngineState) (c : Client) (t : TxId) (v : Value) :
    depositStep true s c t v = stepE s (.deposit c t v) := by
  simp only [depositStep, stepE]
  cases lsDeposit s.accounts c v <;> rfl

/-- C4 counterexample: the claim says the shard writes the dispute store
first and touches the account map only afterwards, so that a store failure
leaves the account map untouched. In the code the Deposit arm runs
`local_state.deposit` first and `store.insert` second: on a failing insert
of `Deposit(0, 1, 5)` into the empty state, the error is reported but
client 0's account has already been credited. -/
theorem deposit_store_failure_touches_accounts :
    (initState.accounts 0 = none)
    ∧ (depositStep false initState 0 1 5).1 = some (.store .ioFailure)
    ∧ (depositStep false initState 0 1 5).2.accounts 0 = some (Account.active ⟨5, 0⟩) :=
  ⟨rfl, by decide, by decide⟩

/-- C4 (amended): the Deposit arm updates the in-memory account map first
and writes the dispute store only afterwards. Consequently, when the store
insert fails: the store is unchanged; if the account update itself failed
the whole state is unchanged and that error is reported; but if the account
update succeeded, the account map retains the applied deposit even though
the transaction reports the store failure. -/
theorem deposit_write_order (s : EngineState) (c : Client) (t : TxId) (v : Value) :
    ((depositStep false s c t v).2.store = s.store)
    ∧ (∀ e, lsDeposit s.accounts c v = .error e →
        depositStep false s c t v = (some (.state e), s))
    ∧ (∀ m, lsDeposit s.accounts c v = .ok m →
        (depositStep false s c t v).1 = some (.store .ioFailure)
        ∧ (depositStep false s c t v).2.accounts = m) := by
  refine ⟨?_, ?_, ?_⟩
  · cases hd : lsDeposit s.accounts c v <;> simp [depositStep, hd]
  · intro e he
    simp [depositStep, he]
  · intro m hm
    simp [depositStep, hm]

/-- Witness for C4: depositing 5 for client 0 into the empty state with a
failing store insert reports `ioFailure` while the account map already
holds the credited account. -/
theorem deposit_write_order_witness :
    (lsDeposit initState.accounts 0 5
      = .ok (initState.accounts.update 0 (.active ⟨0 + 5, 0⟩)))
    ∧ (depositStep false initState 0 1 5).1 = some (.store .ioFailure)
    ∧ (depositStep false initState 0 1 5).2.accounts
        = initState.accounts.update 0 (.active ⟨0 + 5, 0⟩) :=
  ⟨rfl, ((deposit_write_order initState 0 1 5).2.2 _ rfl).1,
   ((deposit_write_order initState 0 1 5).2.2 _ rfl).2⟩

/-- A key absent from the store stays absent under any transaction that is
not a deposit with that `tx_id`: disputes, resolves and chargebacks of a
missing key are rejected, other keys' writes do not touch it, and removals
only delete. -/
theorem step_store_none {s : EngineState} {t : TxId} (tx : Transaction)
    (hnd : ∀ c' v, tx ≠ Transaction.deposit c' t v) (h0 : s.store t = none) :
    (step s tx).store t = none := by
  cases tx with
  | deposit c' t' v =>
    have htt : t' ≠ t := by
      intro he
      exact hnd c' v (by rw [he])
    unfold step
    simp only [stepE]
    cases hd : lsDeposit s.accounts c' v with
    | error e => exact h0
    | ok m => simp [Store.insert, Ne.symm htt, h0]
  | withdrawal c' t' v =>
    unfold step
    simp only [stepE]
    cases hd : lsWithdraw s.accounts c' v with
    | error e => exact h0
    | ok m => exact h0
  | dispute c' t' =>
    unfold step
    simp only [stepE]
    cases hst : s.store t' with
    | none => exact h0
    | some r =>
      have htt : t' ≠ t := by
        intro he
        rw [he] at hst
        rw [h0] at hst
        cases hst
      by_cases h1 : r.status = .disputed
      · simp [h1, h0]
      · by_cases h2 : c' ≠ r.client
        · simp [h1, h2, h0]
        · cases hd : lsFreezeFunds s.accounts c' r.value with
          | error e => simp [h1, h2, hd, h0]
          | ok m => simp [h1, h2, hd, Store.insert, Ne.symm htt, h0]
  | resolve c' t' =>
    unfold step
    simp only [stepE]
    cases hst : s.store t' with
    | none => exact h0
    | some r =>
      by_cases h1 : r.status = .undisputed
      · simp [h1, h0]
      · by_cases h2 : c' ≠ r.client
        · simp [h1, h2, h0]
        · cases hd : lsRelease s.accounts c' r.value with
          | error e => simp [h1, h2, hd, h0]
          | ok m => simp [h1, h2, hd, Store.remove, h0]
  | chargeback c' t' =>
    unfold step
    simp only [stepE]
    cases hst : s.store t' with
    | none => exact h0
    | some r =>
      by_cases h1 : r.status = .undisputed
      · simp [h1, h0]
      · by_cases h2 : c' ≠ r.client
        · simp [h1, h2, h0]
        · cases hd : lsChargeback s.accounts c' r.value with
          | error e => simp [h1, h2, hd, h0]
          | ok m =>
            cases hf : lsFreezeAccount m c' with
            | error e => simp [h1, h2, hd, hf, h0]
            | ok m2 => simp [h1, h2, hd, hf, Store.remove, h0]

/-- A key absent from the store stays absent under any further stream with
no deposit re-using that `tx_id`. -/
theorem foldl_store_none {t : TxId} :
    ∀ (L : List Transaction) (s : EngineState), s.store t = none →
      (∀ tx ∈ L, ∀ c' v, tx ≠ Transaction.deposit c' t v) →
      (L.foldl step s).store t = none := by
  intro L
  induction L with
  | nil => intro s h0 _; exact h0
  | cons tx L ih =>
    intro s h0 hnd
    exact ih (step s tx)
      (step_store_none tx (hnd tx (List.mem_cons_self tx L)) h0)
      (fun tx2 h2 => hnd tx2 (List.mem_cons_of_mem tx h2))

/-- The state reached by
`Deposit(1,1,5); Dispute(1,1); Resolve(1,1); Deposit(1,1,5)` from the empty
state: the resolve deleted the record for `tx_id` 1, but the second deposit
re-created it. -/
def resolvedS : EngineState :=
  [Transaction.deposit 1 1 5, Transaction.dispute 1 1,
   Transaction.resolve 1 1, Transaction.deposit 1 1 5].foldl step initState

/-- C8 counterexample: the claim says every later dispute-lifecycle event
referencing an already-resolved `(client, tx_id)` fails with `NotFound` with
no state change; but after
`Deposit(1,1,5); Dispute(1,1); Resolve(1,1); Deposit(1,1,5)` — where the
second deposit re-used `tx_id` 1 and re-created the record — a later
`Dispute(1,1)` succeeds (no error) and moves client 1's funds from available
to held. -/
theorem dispute_after_resolve_can_succeed :
    (resolvedS.accounts 1 = some (Account.active ⟨10, 0⟩))
    ∧ (stepE resolvedS (.dispute 1 1)).1 = none
    ∧ (stepE resolvedS (.dispute 1 1)).2.accounts 1 = some (Account.active ⟨5, 5⟩) :=
  ⟨by decide, by decide, by decide⟩

/-- C8 (amended): a successful `Resolve` or `Chargeback` for `(c, t)`
deletes the dispute record under key `t`; while the key stays absent — that
is, as long as no later `Deposit` re-uses the same `tx_id` — the key remains
deleted under any further stream, and every `Dispute`, `Resolve` or
`Chargeback` referencing it fails with `NotFound`, dropped with no state
change at all. -/
theorem resolve_chargeback_removes_record (s : EngineState) (c : Client) (t : TxId) :
    ((stepE s (.resolve c t)).1 = none → (stepE s (.resolve c t)).2.store t = none)
    ∧ ((stepE s (.chargeback c t)).1 = none → (stepE s (.chargeback c t)).2.store t = none)
    ∧ (s.store t = none →
        (∀ L : List Transaction, (∀ tx ∈ L, ∀ c' v, tx ≠ Transaction.deposit c' t v) →
          (L.foldl step s).store t = none)
        ∧ (∀ c', stepE s (.dispute c' t) = (some (.store .notFound), s)
            ∧ stepE s (.resolve c' t) = (some (.store .notFound), s)
            ∧ stepE s (.chargeback c' t) = (some (.store .notFound), s))) := by
  refine ⟨?_, ?_, ?_⟩
  · cases hst : s.store t with
    | none => simp [stepE, hst]
    | some r =>
      by_cases h1 : r.status = .undisputed
      · simp [stepE, hst, h1]
      · by_cases h2 : c ≠ r.client
        · simp [stepE, hst, h1, h2]
        · cases hd : lsRelease s.accounts c r.value with
          | error e => simp [stepE, hst, h1, h2, hd]
          | ok m => simp [stepE, hst, h1, h2, hd, Store.remove_self]
  · cases hst : s.store t with
    | none => simp [stepE, hst]
    | some r =>
      by_cases h1 : r.status = .undisputed
      · simp [stepE, hst, h1]
      · by_cases h2 : c ≠ r.client
        · simp [stepE, hst, h1, h2]
        · cases hd : lsChargeback s.accounts c r.value with
          | error e => simp [stepE, hst, h1, h2, hd]
          | ok m =>
            cases hf : lsFreezeAccount m c with
            | error e => simp [stepE, hst, h1, h2, hd, hf]
            | ok m2 => simp [stepE, hst, h1, h2, hd, hf, Store.remove_self]
  · intro h0
    constructor
    · exact fun L hnd => foldl_store_none L s h0 hnd
    · intro c'
      refine ⟨?_, ?_, ?_⟩ <;> (simp only [stepE]; rw [h0])

/-- Witness for C8: after `Deposit(1,1,5); Dispute(1,1); Chargeback(1,1)`
(the state `frozenS`) a successful chargeback has deleted the record under
`tx_id` 1; the key stays deleted under a further withdrawal-only stream and
a later `Resolve(1,1)` fails with `NotFound` and no state change. -/
theorem resolve_chargeback_removes_record_witness :
    (frozenS.store 1 = none)
    ∧ (([Transaction.withdrawal 2 3 1].foldl step frozenS).store 1 = none)
    ∧ stepE frozenS (.resolve 1 1) = (some (.store .notFound), frozenS) :=
  ⟨by decide,
   ((resolve_chargeback_removes_record frozenS 1 1).2.2 (by decide)).1
     [Transaction.withdrawal 2 3 1]
     (by
       intro tx htx c' v
       simp only [List.mem_singleton] at htx
       subst htx
       exact fun h => Transaction.noConfusion h),
   ((resolve_chargeback_removes_record frozenS 1 1).2.2 (by decide)).2 1 |>.2.1⟩

/-- C3: held never negative. For every stream of well-formed transactions
(deposit and withdrawal amounts `≥ 0`, spec §3) and any worker count
`n ≥ 1`, every account present in the final merged state has `held ≥ 0`:
disputes add only the non-negative recorded value, and releases and
chargebacks refuse to remove more than is held. -/
theorem held_nonneg (S : List Transaction) (n : Nat) (hn : 1 ≤ n)
    (hval : ∀ tx ∈ S, 0 ≤ txValue tx) :
    ∀ (c : Client) (acc : Account), runEngine S n c = some acc →
      0 ≤ acc.inner.held := by
  intro c acc hacc
  rw [runEngine_eq_shardRun hn] at hacc
  have hinv : HeldInv (shardRun n (c % n) S) := by
    unfold shardRun
    refine heldInv_foldl _ initState (fun tx htx => ?_) heldInv_init
    exact hval tx (List.mem_of_mem_filter htx)
  exact hinv.1 c acc hacc

/-- Witness for C3: after `Deposit(1,1,5); Dispute(1,1)` run with one
worker, client 1's account is `Active (available 0, held 5)` and its held
balance is non-negative. -/
theorem held_nonneg_witness :
    (∀ tx ∈ [Transaction.deposit 1 1 5, Transaction.dispute 1 1], 0 ≤ txValue tx)
    ∧ runEngine [Transaction.deposit 1 1 5, Transaction.dispute 1 1] 1 1
        = some (Account.active ⟨0, 5⟩)
    ∧ (0 : Value) ≤ (Account.active (⟨0, 5⟩ : AccountInner)).inner.held :=
  ⟨by decide, by decide,
   held_nonneg [Transaction.deposit 1 1 5, Transaction.dispute 1 1] 1
     (le_refl 1) (by decide) 1 (Account.active ⟨0, 5⟩) (by decide)⟩

/-- C10: `freeze_funds(a)` has no funds precondition: on every `Active`
account it succeeds, with `available` decreased by `a` and `held` increased
by `a`; in particular it may drive `available` below zero, as the concrete
instance (available 2, freezing 5, leaving available -3) shows. -/
theorem freeze_funds_unconditional :
    (∀ (a : AccountInner) (amt : Value),
      a.freeze_funds amt = Except.ok ⟨a.available - amt, a.held + amt⟩)
    ∧ AccountInner.freeze_funds ⟨2, 0⟩ 5 = Except.ok ⟨-3, 5⟩ := by
  constructor
  · intro a amt
    rfl
  · rfl

/-- C7: a `Dispute` on a `tx_id` whose record is already marked `Disputed`
is rejected with `NotAvailableForDispute` and the worker state (accounts map
and dispute store) is returned unchanged. -/
theorem second_dispute_rejected (s : EngineState) (c : Client) (t : TxId)
    (r : StoreRec) (hr : s.store t = some r) (hst : r.status = .disputed) :
    stepE s (.dispute c t) = (some (.store .notAvailableForDispute), s) := by
  simp only [stepE]
  rw [hr]
  simp [hst]

/-- Witness for C7: after `Deposit(3, 9, 4); Dispute(3, 9)` the record for
`tx_id` 9 is `Disputed`, and a second `Dispute(3, 9)` is rejected with
`NotAvailableForDispute`, leaving the state unchanged. -/
theorem second_dispute_rejected_witness :
    (([Transaction.deposit 3 9 4, Transaction.dispute 3 9].foldl step initState).store 9
        = some ⟨3, 4, TxStatus.disputed⟩)
    ∧ stepE ([Transaction.deposit 3 9 4, Transaction.dispute 3 9].foldl step initState)
        (.dispute 3 9)
      = (some (.store .notAvailableForDispute),
         [Transaction.deposit 3 9 4, Transaction.dispute 3 9].foldl step initState) :=
  ⟨by decide,
   second_dispute_rejected _ 3 9 ⟨3, 4, TxStatus.disputed⟩ (by decide) rfl⟩

/-- C9: withdrawals are not disputable: processing a `Withdrawal` never
touches the dispute store, and a `Dispute(c, t)` for a `tx_id` with no stored
deposit record is rejected with `NotFound`, returning the state unchanged. -/
theorem withdrawals_not_disputable :
    (∀ (s : EngineState) (c : Client) (t : TxId) (v : Value),
      (step s (.withdrawal c t v)).store = s.store)
    ∧ (∀ (s : EngineState) (c : Client) (t : TxId), s.store t = none →
      stepE s (.dispute c t) = (some (.store .notFound), s)) := by
  constructor
  · intro s c t v
    unfold step
    simp only [stepE]
    cases h : lsWithdraw s.accounts c v <;> simp [h]
  · intro s c t h
    simp only [stepE]
    rw [h]

/-- Witness for C9: after `Deposit(2, 1, 7); Withdrawal(2, 5, 3)` the store
still has no record under the withdrawal's `tx_id` 5, a further withdrawal
leaves the store untouched, and `Dispute(2, 5)` is rejected with `NotFound`
and no state change. -/
theorem withdrawals_not_disputable_witness :
    ((step ([Transaction.deposit 2 1 7, Transaction.withdrawal 2 5 3].foldl step initState)
        (.withdrawal 2 6 1)).store
      = ([Transaction.deposit 2 1 7, Transaction.withdrawal 2 5 3].foldl step initState).store)
    ∧ (([Transaction.deposit 2 1 7, Transaction.withdrawal 2 5 3].foldl step initState).store 5
        = none)
    ∧ stepE ([Transaction.deposit 2 1 7, Transaction.withdrawal 2 5 3].foldl step initState)
        (.dispute 2 5)
      = (some (.store .notFound),
         [Transaction.deposit 2 1 7, Transaction.withdrawal 2 5 3].foldl step initState) :=
  ⟨withdrawals_not_disputable.1 _ 2 6 1, by decide,
   withdrawals_not_disputable.2 _ 2 5 (by decide)⟩

end Bcc
